import Mathlib

/-!
Verification of the pybran schema-driven binary serialization library
(`src/pybran/`): the bidirectional registries and atomic id allocators of
`decorators.py`, the schema-registration logic (`register_class`,
`register_field`, `register_alias`, `refresh`), the codec set of
`serializers.py` and the dispatching `Loader` of `loaders.py`, modelled as
pure Lean functions over explicit state.

Modelling conventions:
* Python dicts are association lists with insertion-order semantics
  (`dictGet` / `dictSet` / `dictContains`).
* Python exceptions become the `PyErr` error type of an `Except` monad.
* Machine-level encodings (`struct.pack` / `struct.unpack`) work on
  `List Nat` byte lists, little-endian, with explicit two's complement.
* Python floats are IEEE-754 binary64 values carried by their 64-bit
  pattern; `struct.pack('d', x)` writes exactly that pattern.
* Recursive (de)serialization threads an explicit recursion budget
  (Python's recursion limit); results of interest are the `.ok` ones.
-/

set_option maxHeartbeats 1000000
set_option synthInstance.maxHeartbeats 400000

namespace Bran

/-- Errors raised by the library: the exception classes of
`pybran/exceptions.py` plus Python-level errors that the code can surface
(`struct.error`, `TypeError`, `RecursionError`). -/
inductive PyErr where
  | registration
  | serializer
  | file
  | structError
  | typeError
  | recursion
  deriving DecidableEq

/-! ### Python dict primitives

An insertion-ordered association list with at most one binding per key,
mirroring CPython dict semantics: lookup finds the binding, assignment
overwrites in place (keeping the position) or appends a fresh binding. -/

/-- Python `key in d`. -/
def dictContains [DecidableEq α] (l : List (α × β)) (k : α) : Bool :=
  l.any (fun p => p.1 = k)

/-- Python `d.get(key)` / `d[key]` (as an `Option`). -/
def dictGet [DecidableEq α] (l : List (α × β)) (k : α) : Option β :=
  (l.find? (fun p => p.1 = k)).map (fun p => p.2)

/-- Python `d[key] = value`: overwrite in place, or append if absent. -/
def dictSet [DecidableEq α] (l : List (α × β)) (k : α) (v : β) : List (α × β) :=
  if dictContains l k then
    l.map (fun p => if p.1 = k then (k, v) else p)
  else
    l ++ [(k, v)]

@[simp] theorem dictContains_nil [DecidableEq α] (k : α) :
    dictContains ([] : List (α × β)) k = false := rfl

@[simp] theorem dictGet_nil [DecidableEq α] (k : α) :
    dictGet ([] : List (α × β)) k = none := rfl

theorem dictContains_cons [DecidableEq α] (p : α × β) (l : List (α × β)) (k : α) :
    dictContains (p :: l) k = (decide (p.1 = k) || dictContains l k) := by
  simp [dictContains]

theorem dictGet_cons [DecidableEq α] (p : α × β) (l : List (α × β)) (k : α) :
    dictGet (p :: l) k = if p.1 = k then some p.2 else dictGet l k := by
  by_cases h : p.1 = k <;> simp [dictGet, List.find?, h]

theorem dictContains_iff_get [DecidableEq α] (l : List (α × β)) (k : α) :
    dictContains l k = true ↔ (dictGet l k).isSome := by
  induction l with
  | nil => simp
  | cons p rest ih =>
    rw [dictContains_cons, dictGet_cons]
    by_cases h : p.1 = k <;> simp [h, ih]

theorem dictGet_of_not_contains [DecidableEq α] (l : List (α × β)) (k : α)
    (h : dictContains l k = false) : dictGet l k = none := by
  cases hg : dictGet l k with
  | none => rfl
  | some v =>
    have := (dictContains_iff_get l k).mpr (by simp [hg])
    rw [this] at h
    cases h

theorem dictGet_map_replace_self [DecidableEq α] (l : List (α × β)) (k : α) (v : β) :
    dictContains l k = true →
      dictGet (l.map (fun p => if p.1 = k then (k, v) else p)) k = some v := by
  induction l with
  | nil => intro h; simp at h
  | cons p rest ih =>
    intro h
    by_cases hp : p.1 = k
    · simp [dictGet_cons, hp]
    · rw [dictContains_cons] at h
      have hrest : dictContains rest k = true := by simpa [hp] using h
      simp only [List.map_cons, if_neg hp]
      rw [dictGet_cons]
      simp only [hp, if_false]
      exact ih hrest

theorem dictGet_map_replace_ne [DecidableEq α] (l : List (α × β)) (k k2 : α) (v : β)
    (h : k2 ≠ k) :
    dictGet (l.map (fun p => if p.1 = k then (k, v) else p)) k2 = dictGet l k2 := by
  induction l with
  | nil => simp
  | cons p rest ih =>
    by_cases hp : p.1 = k
    · have hpk2 : ¬ (k = k2) := fun hh => h hh.symm
      have hpk2b : ¬ (p.1 = k2) := by rw [hp]; exact hpk2
      simp only [List.map_cons, if_pos hp]
      rw [dictGet_cons, dictGet_cons]
      simp only [hpk2, hpk2b, if_false]
      exact ih
    · simp only [List.map_cons, if_neg hp]
      rw [dictGet_cons, dictGet_cons]
      by_cases hp2 : p.1 = k2
      · simp [hp2]
      · simp only [hp2, if_false]
        exact ih

theorem dictGet_append_single [DecidableEq α] (l : List (α × β)) (k k2 : α) (v : β) :
    dictGet (l ++ [(k, v)]) k2 =
      match dictGet l k2 with
      | some w => some w
      | none => if k = k2 then some v else none := by
  induction l with
  | nil => by_cases h : k = k2 <;> simp [dictGet_cons, h]
  | cons p rest ih =>
    rw [List.cons_append, dictGet_cons, dictGet_cons]
    by_cases hp : p.1 = k2
    · simp [hp]
    · simp only [hp, if_false]
      exact ih

theorem dictGet_set_self [DecidableEq α] (l : List (α × β)) (k : α) (v : β) :
    dictGet (dictSet l k v) k = some v := by
  unfold dictSet
  by_cases h : dictContains l k
  · rw [if_pos h]
    exact dictGet_map_replace_self l k v h
  · rw [if_neg h, dictGet_append_single]
    rw [dictGet_of_not_contains l k (by simpa using h)]
    simp

theorem dictGet_set_ne [DecidableEq α] (l : List (α × β)) (k k2 : α) (v : β)
    (h : k2 ≠ k) : dictGet (dictSet l k v) k2 = dictGet l k2 := by
  unfold dictSet
  by_cases hc : dictContains l k
  · rw [if_pos hc]
    exact dictGet_map_replace_ne l k k2 v h
  · rw [if_neg hc, dictGet_append_single]
    have hk : ¬ (k = k2) := fun hh => h hh.symm
    cases hg : dictGet l k2 <;> simp [hk]

theorem dictContains_set [DecidableEq α] (l : List (α × β)) (k k2 : α) (v : β) :
    dictContains (dictSet l k v) k2 = (dictContains l k2 || decide (k2 = k)) := by
  by_cases h : k2 = k
  · subst h
    have h1 : (dictGet (dictSet l k2 v) k2).isSome := by simp [dictGet_set_self]
    rw [(dictContains_iff_get _ _).symm] at h1
    simp [h1]
  · have h1 := dictGet_set_ne l k k2 v h
    have h2 := dictContains_iff_get (dictSet l k v) k2
    have h3 := dictContains_iff_get l k2
    rw [h1] at h2
    simp only [decide_eq_false h, Bool.or_false]
    cases hc : dictContains l k2
    · have hns : ¬ (dictGet l k2).isSome = true := by
        intro hh
        rw [← h3] at hh
        rw [hc] at hh
        cases hh
      cases hcc : dictContains (dictSet l k v) k2
      · rfl
      · exact absurd (h2.mp hcc) hns
    · exact h2.mpr (h3.mp hc)



/-! ### The generic `Registry` of `pybran/decorators.py`

`Registry` stores mirrored key/value pairs in one Python dict and holds a
`default_value_generator`.  The generators used by the library mutate
global state (the `TypeId`/`NameId` counters, the heap of
`ClassDefinition` objects), so a generator here threads an explicit
state `σ`.  Keys and values share one universe `α`, as in the Python dict. -/

structure Registry (σ : Type u) (α : Type v) where
  entries : List (α × α)
  default_value_generator : σ → α → σ × α

/-- `Registry.contains`. -/
def Registry.contains [DecidableEq α] (r : Registry σ α) (k : α) : Bool :=
  dictContains r.entries k

/-- `Registry.set`: `self.registry.__setitem__(key, value)` — forward
direction only, no mirroring. -/
def Registry.set [DecidableEq α] (r : Registry σ α) (k v : α) : Registry σ α :=
  { r with entries := dictSet r.entries k v }

/-- `Registry.add`: if the key is absent, obtain a value (the explicit one,
or the generator's output when the argument is `None`), then store the
forward binding and the mirror binding `set(get(key), key)`.  The inner
`get(key)` always hits the binding just stored, modelled by `getD`. -/
def Registry.add [DecidableEq α] (r : Registry σ α) (s : σ) (k : α) (value : Option α) :
    Registry σ α × σ :=
  if r.contains k then (r, s)
  else
    let sv := match value with
      | none => r.default_value_generator s k
      | some v => (s, v)
    let r1 := r.set k sv.2
    let r2 := r1.set ((dictGet r1.entries k).getD sv.2) k
    (r2, sv.1)

/-- `Registry.get`: on a miss either autoregister through `add` or raise
`BranRegistrationException`; finally return `self.registry.get(key)`. -/
def Registry.get [DecidableEq α] (r : Registry σ α) (s : σ) (k : α) (autoregister : Bool) :
    Except PyErr (Registry σ α × σ × Option α) :=
  if r.contains k then .ok (r, s, dictGet r.entries k)
  else if autoregister then
    let rs := r.add s k none
    .ok (rs.1, rs.2, dictGet rs.1.entries k)
  else .error .registration

/-- `Registry.remove`: pop the key, returning its value; the mirror
binding is intentionally left untouched. -/
def Registry.remove [DecidableEq α] (r : Registry σ α) (k : α) :
    Registry σ α × Option α :=
  if r.contains k then
    ({ r with entries := r.entries.filter (fun p => ¬ p.1 = k) }, dictGet r.entries k)
  else (r, none)

/-- Storing `k -> v` and then the mirror `set(get(k), k)` leaves both
directions retrievable. -/
theorem dict_mirror_pair [DecidableEq α] (e : List (α × α)) (k v : α) :
    dictGet (dictSet (dictSet e k v) ((dictGet (dictSet e k v) k).getD v) k) k = some v ∧
      dictGet (dictSet (dictSet e k v) ((dictGet (dictSet e k v) k).getD v) k) v = some k := by
  rw [dictGet_set_self]
  simp only [Option.getD_some]
  constructor
  · by_cases hvk : v = k
    · subst hvk
      simpa using dictGet_set_self (dictSet e v v) v v
    · rw [dictGet_set_ne (dictSet e k v) v k k (fun hh => hvk hh.symm)]
      exact dictGet_set_self _ _ _
  · exact dictGet_set_self _ _ _

/-- After `add` on an absent key, both directions are present in the
underlying dict (the value being the explicit one or the generator's). -/
theorem Registry.add_entries_mirrored {σ : Type u} {α : Type v} [DecidableEq α]
    (r : Registry σ α) (s : σ) (k : α) (value : Option α)
    (hk : r.contains k = false) :
    dictGet (r.add s k value).1.entries k =
        some (match value with
          | none => (r.default_value_generator s k).2
          | some v => v) ∧
      dictGet (r.add s k value).1.entries
        (match value with
          | none => (r.default_value_generator s k).2
          | some v => v) =
        some k := by
  have hk2 : ¬ r.contains k = true := by simp [hk]
  cases value with
  | some v =>
    unfold Registry.add Registry.set
    rw [if_neg hk2]
    exact dict_mirror_pair r.entries k v
  | none =>
    unfold Registry.add Registry.set
    rw [if_neg hk2]
    exact dict_mirror_pair r.entries k (r.default_value_generator s k).2

/-- The state returned by `add` on an absent key: the generator's state for
a generated value, the incoming state for an explicit one. -/
theorem Registry.add_state {σ : Type u} {α : Type v} [DecidableEq α]
    (r : Registry σ α) (s : σ) (k : α) (value : Option α)
    (hk : r.contains k = false) :
    (r.add s k value).2 =
      match value with
      | none => (r.default_value_generator s k).1
      | some _ => s := by
  have hk2 : ¬ r.contains k = true := by simp [hk]
  cases value <;> simp [Registry.add, if_neg hk2]

/-- On a hit, `get` without autoregistration returns the stored value and
changes nothing. -/
theorem Registry.get_of_entry {σ : Type u} {α : Type v} [DecidableEq α]
    (r : Registry σ α) (s : σ) (k v : α) (h : dictGet r.entries k = some v) :
    r.get s k false = .ok (r, s, some v) := by
  have hc : r.contains k = true :=
    (dictContains_iff_get r.entries k).mpr (by simp [h])
  unfold Registry.get
  rw [if_pos hc, h]

/-- C3: for every registry and every key `k` not yet contained, after
`add(k, v)` with an explicit value `v`, after `add(k)` with `v` the
generator's output for `k`, and after a miss under
`get(k, autoregister=True)`, both directions are stored:
`get(k) == v` and `get(v) == k`. -/
theorem registry_add_stores_both_directions {σ : Type u} {α : Type v} [DecidableEq α]
    (r : Registry σ α) (s : σ) (k : α) (hk : r.contains k = false) :
    (∀ v : α,
      ((r.add s k (some v)).1.get (r.add s k (some v)).2 k false =
          .ok ((r.add s k (some v)).1, (r.add s k (some v)).2, some v)) ∧
      ((r.add s k (some v)).1.get (r.add s k (some v)).2 v false =
          .ok ((r.add s k (some v)).1, (r.add s k (some v)).2, some k))) ∧
    (((r.add s k none).1.get (r.add s k none).2 k false =
        .ok ((r.add s k none).1, (r.add s k none).2,
          some (r.default_value_generator s k).2)) ∧
      ((r.add s k none).1.get (r.add s k none).2 (r.default_value_generator s k).2 false =
        .ok ((r.add s k none).1, (r.add s k none).2, some k))) ∧
    (r.get s k true =
      .ok ((r.add s k none).1, (r.add s k none).2,
        some (r.default_value_generator s k).2)) := by
  have hk2 : ¬ r.contains k = true := by simp [hk]
  refine ⟨fun v => ?_, ⟨?_, ?_⟩, ?_⟩
  · have h := Registry.add_entries_mirrored r s k (some v) hk
    exact ⟨Registry.get_of_entry _ _ _ _ h.1, Registry.get_of_entry _ _ _ _ h.2⟩
  · have h := Registry.add_entries_mirrored r s k none hk
    exact Registry.get_of_entry _ _ _ _ h.1
  · have h := Registry.add_entries_mirrored r s k none hk
    exact Registry.get_of_entry _ _ _ _ h.2
  · have h := Registry.add_entries_mirrored r s k none hk
    unfold Registry.get
    rw [if_neg hk2, if_pos rfl]
    simp only
    rw [h.1]

/-- Witness for C3 at a concrete registry, key and value. -/
theorem registry_add_stores_both_directions_witness :
    ((Registry.mk [] (fun (s k : Nat) => (s + 1, k + 100))).contains 5 = false) ∧
      (((Registry.mk [] (fun (s k : Nat) => (s + 1, k + 100))).add 0 5 (some 7)).1.get
          ((Registry.mk [] (fun (s k : Nat) => (s + 1, k + 100))).add 0 5 (some 7)).2 5 false =
        .ok (((Registry.mk [] (fun (s k : Nat) => (s + 1, k + 100))).add 0 5 (some 7)).1,
          ((Registry.mk [] (fun (s k : Nat) => (s + 1, k + 100))).add 0 5 (some 7)).2,
          some 7)) :=
  ⟨rfl,
    ((registry_add_stores_both_directions
      (Registry.mk [] (fun (s k : Nat) => (s + 1, k + 100))) 0 5 rfl).1 7).1⟩

/-- C4: `get(k, autoregister=False)` raises a `RegistrationError` iff the
registry contains no entry for `k`; on a hit it returns the stored value
and leaves the registry and the generator state unchanged. -/
theorem registry_get_no_autoregister_spec {σ : Type u} {α : Type v} [DecidableEq α]
    (r : Registry σ α) (s : σ) (k : α) :
    ((r.get s k false = .error .registration) ↔ r.contains k = false) ∧
      (∀ v, dictGet r.entries k = some v → r.get s k false = .ok (r, s, some v)) := by
  constructor
  · by_cases hc : r.contains k
    · constructor
      · intro h
        unfold Registry.get at h
        rw [if_pos hc] at h
        cases h
      · intro h
        rw [h] at hc
        cases hc
    · constructor
      · intro _
        simp [hc]
      · intro _
        unfold Registry.get
        rw [if_neg hc]
        rfl
  · exact fun v h => Registry.get_of_entry r s k v h

/-- Witness for C4: a missing key raises, a present key returns its value. -/
theorem registry_get_no_autoregister_spec_witness :
    (((Registry.mk [] (fun (s k : Nat) => (s + 1, k + 100))).get 0 5 false =
        .error .registration) ↔
      (Registry.mk [] (fun (s k : Nat) => (s + 1, k + 100))).contains 5 = false) ∧
      ((Registry.mk [(5, 7)] (fun (s k : Nat) => (s + 1, k + 100))).get 0 5 false =
        .ok (Registry.mk [(5, 7)] (fun (s k : Nat) => (s + 1, k + 100)), 0, some 7)) :=
  ⟨(registry_get_no_autoregister_spec
      (Registry.mk [] (fun (s k : Nat) => (s + 1, k + 100))) 0 5).1,
    (registry_get_no_autoregister_spec
      (Registry.mk [(5, 7)] (fun (s k : Nat) => (s + 1, k + 100))) 0 5).2 7 rfl⟩

/-! ### Python types, registry values, and the `pybran.decorators` state -/

/-- Python types relevant to the library: the primitive and collection
types bound to default serializers, plus user-defined classes (by
identity) and the runtime types of other objects the registries can
hold. -/
inductive PyType where
  | bool
  | int
  | float
  | str
  | bytes
  | set
  | dict
  | list
  | tuple
  | noneType
  | typeType
  | classDefType
  | user (n : Nat)
  deriving DecidableEq

/-- The universe of values stored in the global registries: types,
integer ids, strings and byte literals (aliases), Python `None`, and
references to `ClassDefinition` objects (the mirror values of
`class_registry`). -/
inductive RVal where
  | ty (t : PyType)
  | int (i : Int)
  | str (s : String)
  | bytes (bs : List Nat)
  | none
  | cdef (ref : Nat)
  deriving DecidableEq

/-- Python truthiness, used by the `if _field.alias:` check. -/
def rvalTruthy : RVal → Bool
  | .ty _ => true
  | .int i => decide (i ≠ 0)
  | .str s => ! s.isEmpty
  | .bytes bs => ! bs.isEmpty
  | .none => false
  | .cdef _ => true

/-- `type(x)` for registry values. -/
def rvalRuntimeType : RVal → PyType
  | .ty _ => .typeType
  | .int _ => .int
  | .str _ => .str
  | .bytes _ => .bytes
  | .none => .noneType
  | .cdef _ => .classDefType

/-- A `ClassDefinition` object: the class it was created for plus its two
per-class registries, kept as raw entry lists (their generators, the
global `NameId` counter and the constant `None` generator, are
reattached by the operations below). -/
structure ClassDef where
  cls : RVal
  fields : List (RVal × RVal)
  aliases : List (RVal × RVal)
  deriving DecidableEq

/-- A member of a class `__dict__`: a `Field(val, alias)` marker (the
alias being `RVal.none` when omitted) or a plain attribute. -/
inductive Attr where
  | fieldMarker (val : RVal) (aliasv : RVal)
  | plain (val : RVal)
  deriving DecidableEq

/-- The global mutable state of `pybran.decorators`: the two module-level
registries, the two singleton allocators, the heap of `ClassDefinition`
objects (addressed by `RVal.cdef` references) and every class object's
`__dict__` (mutable, because registration rewrites `Field` markers via
`setattr`). -/
structure DecState where
  type_registry : List (RVal × RVal)
  typeCounter : Nat
  nameCounter : Nat
  class_registry : List (RVal × RVal)
  heap : List ClassDef
  objDicts : List (PyType × List (String × Attr))
  deriving DecidableEq

/-- `lambda k: TypeId().get_id()`, the generator of `type_registry`. -/
def typeIdGen (s : DecState) (_ : RVal) : DecState × RVal :=
  ({ s with typeCounter := s.typeCounter + 1 }, .int ((s.typeCounter : Int) + 1))

/-- `lambda k: NameId().get_id()`, the generator of per-class `fields`
registries (never invoked on the code paths modelled here, but part of
the object). -/
def nameIdGen (s : DecState) (_ : RVal) : DecState × RVal :=
  ({ s with nameCounter := s.nameCounter + 1 }, .int ((s.nameCounter : Int) + 1))

/-- `lambda k: None`, the generator of per-class `aliases` registries. -/
def aliasGen (s : DecState) (_ : RVal) : DecState × RVal := (s, .none)

/-- `lambda cls: ClassDefinition(cls)`: allocate a fresh `ClassDefinition`
with empty registries on the heap. -/
def classDefGen (s : DecState) (k : RVal) : DecState × RVal :=
  ({ s with heap := s.heap ++ [⟨k, [], []⟩] }, .cdef s.heap.length)

/-- The module-level `type_registry` viewed as a `Registry`. -/
def DecState.typeReg (s : DecState) : Registry DecState RVal :=
  ⟨s.type_registry, typeIdGen⟩

/-- The module-level `class_registry` viewed as a `Registry`. -/
def DecState.classReg (s : DecState) : Registry DecState RVal :=
  ⟨s.class_registry, classDefGen⟩

/-- `type_registry.add(key, value)`. -/
def typeAdd (s : DecState) (k : RVal) (v : Option RVal) : DecState :=
  let rs := (s.typeReg).add s k v
  { rs.2 with type_registry := rs.1.entries }

/-- `type_registry.get(key, autoregister)`. -/
def typeGet (s : DecState) (k : RVal) (auto : Bool) :
    Except PyErr (DecState × Option RVal) :=
  match (s.typeReg).get s k auto with
  | .error e => .error e
  | .ok (r, s2, v) => .ok ({ s2 with type_registry := r.entries }, v)

/-- `class_registry.add(key)` (only ever called without a value). -/
def classAdd (s : DecState) (k : RVal) : DecState :=
  let rs := (s.classReg).add s k none
  { rs.2 with class_registry := rs.1.entries }

/-- `class_registry.get(key, autoregister)`. -/
def classGet (s : DecState) (k : RVal) (auto : Bool) :
    Except PyErr (DecState × Option RVal) :=
  match (s.classReg).get s k auto with
  | .error e => .error e
  | .ok (r, s2, v) => .ok ({ s2 with class_registry := r.entries }, v)

/-- Dereference the result of `class_registry.get(cls)` to the
`ClassDefinition` object; anything else is a Python-level error. -/
def derefClassDef (s : DecState) (v : Option RVal) : Except PyErr (Nat × ClassDef) :=
  match v with
  | some (.cdef ref) =>
    match s.heap.get? ref with
    | some cd => .ok (ref, cd)
    | Option.none => .error .typeError
  | _ => .error .typeError

/-- `register_field(cls, name, _type)`:
`class_registry.get(cls).fields.set(name, _type)` followed by
`type_registry.add(_type)`.  The field key is kept as a raw value, since
Python never checks that it is a string. -/
def register_field (s : DecState) (cls : PyType) (name : RVal) (t : PyType) :
    Except PyErr DecState := do
  let (s, v) ← classGet s (.ty cls) false
  let (ref, cd) ← derefClassDef s v
  let cd := { cd with fields := dictSet cd.fields name (.ty t) }
  let s := { s with heap := s.heap.set ref cd }
  .ok (typeAdd s (.ty t) none)

/-- `register_alias(cls, name, alias=None)`:
`class_registry.get(cls).aliases.add(name, alias)`.  A Python `None`
argument — defaulted or passed explicitly — is the `Option.none` case,
exactly the `value is None` test inside `Registry.add`. -/
def register_alias (s : DecState) (cls : PyType) (name : RVal) (aliasv : Option RVal) :
    Except PyErr DecState := do
  let (s, v) ← classGet s (.ty cls) false
  let (ref, cd) ← derefClassDef s v
  let r : Registry DecState RVal := ⟨cd.aliases, aliasGen⟩
  let rs := r.add s name aliasv
  let cd := { cd with aliases := rs.1.entries }
  .ok { rs.2 with heap := rs.2.heap.set ref cd }

/-- `register_class(cls, fields=None, aliases=None)` — the version under
`src/pybran/decorators.py`: add the class to both global registries,
reset the `NameId` allocator, scan `cls.__dict__` for `Field` markers
when no (or an empty) field map is supplied — collecting marker values,
collecting truthy explicit aliases, and unwrapping each marker via
`setattr` — then, per field, autogenerate a missing alias from `NameId`
and `register_field` it, and finally `register_alias` every alias
entry. -/
def register_class (s : DecState) (cls : PyType) (fields0 : Option (List (RVal × RVal)))
    (aliases0 : Option (List (RVal × RVal))) : Except PyErr DecState := do
  let fields := fields0.getD []
  let aliases := aliases0.getD []
  let s := classAdd s (.ty cls)
  let s := typeAdd s (.ty cls) none
  let s := { s with nameCounter := 0 }
  let scan :=
    if fields.isEmpty then
      let dict := (dictGet s.objDicts cls).getD []
      let autoregistered := dict.filterMap (fun p =>
        match p.2 with
        | .fieldMarker v _ => some ((RVal.str p.1), v)
        | .plain _ => Option.none)
      let aliases := dict.foldl (fun al p =>
        match p.2 with
        | .fieldMarker _ a => if rvalTruthy a then dictSet al (RVal.str p.1) a else al
        | .plain _ => al) aliases
      let newDict := dict.map (fun p =>
        match p.2 with
        | .fieldMarker v _ => (p.1, Attr.plain v)
        | .plain _ => p)
      (autoregistered, aliases, some newDict)
    else (fields, aliases, Option.none)
  let fields := scan.1
  let aliases := scan.2.1
  let s := match scan.2.2 with
    | some nd => { s with objDicts := dictSet s.objDicts cls nd }
    | Option.none => s
  let (s, aliases) ← fields.foldlM (fun (acc : DecState × List (RVal × RVal)) p => do
    let (s, al) := acc
    let (s, al) :=
      if dictContains al p.1 then (s, al)
      else
        let s2 := { s with nameCounter := s.nameCounter + 1 }
        (s2, dictSet al p.1 (.int (s2.nameCounter : Int)))
    let s ← register_field s cls p.1 (match p.2 with | .ty t => t | v => rvalRuntimeType v)
    .ok (s, al)) (s, aliases)
  let s ← aliases.foldlM (fun s2 p =>
    register_alias s2 cls p.1 (if p.2 = RVal.none then Option.none else some p.2)) s
  .ok s

/-- `refresh()`: snapshot each registered class's field and alias tables
(in registration order, skipping the non-`type` mirror keys), clear both
global registries, reset both allocators, then re-register every class
from the snapshot. -/
def refresh (s : DecState) : Except PyErr DecState := do
  let keys := s.class_registry.map (fun p => p.1)
  let snapshot ← keys.foldlM
    (fun (acc : List (PyType × List (RVal × RVal) × List (RVal × RVal))) k => do
      match k with
      | .ty c => do
        let (s2, v) ← classGet s k false
        let (_, cd) ← derefClassDef s2 v
        .ok (acc ++ [(c, cd.fields, cd.aliases)])
      | _ => .ok acc) []
  let s := { s with
    class_registry := [], type_registry := [], typeCounter := 0, nameCounter := 0 }
  snapshot.foldlM (fun s2 entry => register_class s2 entry.1 (some entry.2.1) (some entry.2.2)) s

/-! ### Helper lemmas about the concrete registry operations -/

/-- Reduction of `Except` bind on a success. -/
theorem bind_ok_eq {α β : Type u} (a : α) (f : α → Except PyErr β) :
    Bind.bind (Except.ok a) f = f a := rfl

/-- Reduction of `Except` bind on `pure`. -/
theorem bind_pure_eq {α β : Type u} (a : α) (f : α → Except PyErr β) :
    Bind.bind (pure a : Except PyErr α) f = f a := rfl

/-- Reduction of `Except` bind on an error. -/
theorem bind_error_eq {α β : Type u} (e : PyErr) (f : α → Except PyErr β) :
    Bind.bind (Except.error e : Except PyErr α) f = .error e := rfl

/-- `typeAdd` never touches the heap. -/
theorem typeAdd_heap (s : DecState) (k : RVal) (v : Option RVal) :
    (typeAdd s k v).heap = s.heap := by
  unfold typeAdd Registry.add
  by_cases h : (s.typeReg).contains k
  · simp [if_pos h]
  · simp only [if_neg h]
    cases v <;> simp [typeIdGen, Registry.set, DecState.typeReg]

/-- `classGet` on a present key returns the stored value and the state
unchanged. -/
theorem classGet_of_entry (s : DecState) (k v : RVal)
    (h : dictGet s.class_registry k = some v) :
    classGet s k false = .ok (s, some v) := by
  unfold classGet
  rw [Registry.get_of_entry (s.classReg) s k v h]
  rfl

/-- `typeGet` on a present key returns the stored value and the state
unchanged. -/
theorem typeGet_of_entry (s : DecState) (k v : RVal)
    (h : dictGet s.type_registry k = some v) :
    typeGet s k false = .ok (s, some v) := by
  unfold typeGet
  rw [Registry.get_of_entry (s.typeReg) s k v h]
  rfl

/-- C10: `Registry.set` stores only the forward direction, so the
per-class field table is not mirrored: after `register_field(cls, name, t)`
on a class schema whose field table does not contain `t` as a key, the
fields registry of `cls` contains `name -> t` but no reverse entry for
`t` — unlike tables populated through `add`. -/
theorem register_field_not_mirrored (s : DecState) (cls : PyType) (name : String)
    (t : PyType) (ref : Nat) (cd : ClassDef)
    (hcls : dictGet s.class_registry (.ty cls) = some (.cdef ref))
    (hcd : s.heap.get? ref = some cd)
    (ht : dictContains cd.fields (.ty t) = false) :
    ∃ s2, register_field s cls (.str name) t = .ok s2 ∧
      ∃ cd2, s2.heap.get? ref = some cd2 ∧
        dictGet cd2.fields (.str name) = some (.ty t) ∧
        dictContains cd2.fields (.ty t) = false := by
  have href : ref < s.heap.length := by
    by_contra hlen
    rw [List.get?_eq_none.mpr (by omega)] at hcd
    cases hcd
  unfold register_field derefClassDef
  rw [classGet_of_entry s (.ty cls) (.cdef ref) hcls]
  simp only [bind_ok_eq, hcd]
  refine ⟨_, rfl, ?_⟩
  rw [typeAdd_heap]
  exact ⟨_, List.get?_set_eq_of_lt _ href, dictGet_set_self _ _ _,
    by rw [dictContains_set]; simp [ht]⟩

/-- Witness for C10 at a concrete one-class state. -/
theorem register_field_not_mirrored_witness :
    ∃ s2, register_field
        (DecState.mk [] 0 0 [(.ty (.user 0), .cdef 0), (.cdef 0, .ty (.user 0))]
          [ClassDef.mk (.ty (.user 0)) [] []] [])
        (.user 0) (.str "test") .int = .ok s2 ∧
      ∃ cd2, s2.heap.get? 0 = some cd2 ∧
        dictGet cd2.fields (.str "test") = some (.ty .int) ∧
        dictContains cd2.fields (.ty .int) = false :=
  register_field_not_mirrored
    (DecState.mk [] 0 0 [(.ty (.user 0), .cdef 0), (.cdef 0, .ty (.user 0))]
      [ClassDef.mk (.ty (.user 0)) [] []] [])
    (.user 0) "test" .int 0 (ClassDef.mk (.ty (.user 0)) [] []) rfl rfl rfl

/-- C9 counterexample: a one-class state where field `test` already holds
the alias `b\x05`.  `register_alias(cls, "test", "newalias")` goes through
`Registry.add`, which inserts only if the key is absent, so afterwards the
alias table still maps `test` to `b\x05`, not to `"newalias"` — refuting
the claim that an explicit alias overwrites the existing one. -/
theorem register_alias_overwrite_counterexample :
    ∃ s2, register_alias
        (DecState.mk [] 0 0 [(.ty (.user 0), .cdef 0), (.cdef 0, .ty (.user 0))]
          [ClassDef.mk (.ty (.user 0)) [(.str "test", .ty .int)]
            [(.str "test", .bytes [5]), (.bytes [5], .str "test")]] [])
        (.user 0) (.str "test") (some (.str "newalias")) = .ok s2 ∧
      (s2.heap.get? 0).map (fun cd => dictGet cd.aliases (.str "test")) =
        some (some (.bytes [5])) := by
  exact ⟨_, rfl, by decide⟩

/-- C9 amended: `register_alias(cls, name, alias)` inserts but never
overwrites: when `name` already holds an alias the call leaves the class
definition unchanged; when `name` has no alias yet, an explicit alias `a`
is stored in both directions without touching the field table; when the
alias argument is omitted, the aliases registry's generator supplies
Python `None`, which is stored as the alias. -/
theorem register_alias_insert_only (s : DecState) (cls : PyType) (name : RVal)
    (ref : Nat) (cd : ClassDef)
    (hcls : dictGet s.class_registry (.ty cls) = some (.cdef ref))
    (hcd : s.heap.get? ref = some cd) :
    (∀ a : Option RVal, dictContains cd.aliases name = true →
      ∃ s2, register_alias s cls name a = .ok s2 ∧
        s2.heap.get? ref = some cd) ∧
    (dictContains cd.aliases name = false →
      (∀ a : RVal,
        ∃ s2, register_alias s cls name (some a) = .ok s2 ∧
          ∃ cd2, s2.heap.get? ref = some cd2 ∧
            dictGet cd2.aliases name = some a ∧
            dictGet cd2.aliases a = some name ∧
            cd2.fields = cd.fields) ∧
      (∃ s2, register_alias s cls name none = .ok s2 ∧
        ∃ cd2, s2.heap.get? ref = some cd2 ∧
          dictGet cd2.aliases name = some RVal.none ∧
          cd2.fields = cd.fields)) := by
  have href : ref < s.heap.length := by
    by_contra hlen
    rw [List.get?_eq_none.mpr (by omega)] at hcd
    cases hcd
  constructor
  · intro a hc
    unfold register_alias derefClassDef
    rw [classGet_of_entry s (.ty cls) (.cdef ref) hcls]
    simp only [bind_ok_eq, hcd]
    have hnoop : (Registry.mk cd.aliases aliasGen : Registry DecState RVal).add s name a =
        (Registry.mk cd.aliases aliasGen, s) := by
      unfold Registry.add
      rw [if_pos (by exact hc)]
    rw [hnoop]
    exact ⟨_, rfl, List.get?_set_eq_of_lt _ href⟩
  · intro hc
    have hc2 : ¬ (Registry.mk cd.aliases aliasGen : Registry DecState RVal).contains name = true := by
      simp [Registry.contains, hc]
    constructor
    · intro a
      unfold register_alias derefClassDef
      rw [classGet_of_entry s (.ty cls) (.cdef ref) hcls]
      simp only [bind_ok_eq, hcd]
      unfold Registry.add
      rw [if_neg hc2]
      simp only [Registry.set]
      refine ⟨_, rfl, _, List.get?_set_eq_of_lt _ href, ?_, ?_, rfl⟩
      · exact (dict_mirror_pair cd.aliases name a).1
      · exact (dict_mirror_pair cd.aliases name a).2
    · unfold register_alias derefClassDef
      rw [classGet_of_entry s (.ty cls) (.cdef ref) hcls]
      simp only [bind_ok_eq, hcd]
      unfold Registry.add
      rw [if_neg hc2]
      simp only [Registry.set, aliasGen]
      refine ⟨_, rfl, _, List.get?_set_eq_of_lt _ href, ?_, rfl⟩
      exact (dict_mirror_pair cd.aliases name RVal.none).1

/-- Witness for C9 amended, at a concrete class with no alias for `test`. -/
theorem register_alias_insert_only_witness :
    ∃ s2, register_alias
        (DecState.mk [] 0 0 [(.ty (.user 0), .cdef 0), (.cdef 0, .ty (.user 0))]
          [ClassDef.mk (.ty (.user 0)) [(.str "test", .ty .int)] []] [])
        (.user 0) (.str "test") (some (.str "myalias")) = .ok s2 ∧
      ∃ cd2, s2.heap.get? 0 = some cd2 ∧
        dictGet cd2.aliases (.str "test") = some (.str "myalias") ∧
        dictGet cd2.aliases (.str "myalias") = some (.str "test") ∧
        cd2.fields = (ClassDef.mk (.ty (.user 0)) [(.str "test", .ty .int)] []).fields :=
  ((register_alias_insert_only
      (DecState.mk [] 0 0 [(.ty (.user 0), .cdef 0), (.cdef 0, .ty (.user 0))]
        [ClassDef.mk (.ty (.user 0)) [(.str "test", .ty .int)] []] [])
      (.user 0) (.str "test") 0
      (ClassDef.mk (.ty (.user 0)) [(.str "test", .ty .int)] []) rfl rfl).2 rfl).1
    (.str "myalias")

/-- The `__dict__` of `ClassCustomAliases` from `tests/test_decorators.py`:
`test = field(int, alias=b\x05)` and `test2 = field(int)`. -/
def classCustomAliasesDict : List (String × Attr) :=
  [("test", .fieldMarker (.ty .int) (.bytes [5])), ("test2", .fieldMarker (.ty .int) .none)]

/-- A fresh interpreter state in which `ClassCustomAliases` is `user 0`
and `InheritFields` — a subclass declaring no fields of its own, whose own
`__dict__` is therefore empty (Python's `cls.__dict__` never contains
inherited members) — is `user 1`. -/
def inheritScenario : DecState :=
  ⟨[], 0, 0, [], [], [(.user 0, classCustomAliasesDict), (.user 1, [])]⟩

/-- C5, evaluating the code at the failing input: after registering the
base class and then the subclass, the subclass's field table and alias
table are both empty while the base's field table holds `test` and
`test2`.  `register_class` in `src/pybran/decorators.py` scans only
`cls.__dict__`, never merges base-class markers, and accepts no `ignore`
parameter, contradicting the claim and the repo's own
`tests/test_decorators.py`. -/
theorem register_class_subclass_not_inherited :
    ∃ s2 : DecState,
      (Bind.bind (register_class inheritScenario (.user 0) none none)
        (fun s1 => register_class s1 (.user 1) none none)) = .ok s2 ∧
      dictGet s2.class_registry (.ty (.user 1)) = some (.cdef 1) ∧
      s2.heap.get? 1 = some (ClassDef.mk (.ty (.user 1)) [] []) ∧
      dictGet s2.class_registry (.ty (.user 0)) = some (.cdef 0) ∧
      (s2.heap.get? 0).map ClassDef.fields =
        some [(.str "test", .ty .int), (.str "test2", .ty .int)] := by
  exact ⟨_, rfl, by decide, by decide, by decide, by decide⟩

/-! ### Python values and the `struct` byte-level primitives -/

/-- Python values handled by the default codec set: booleans, ints,
floats (by their IEEE-754 binary64 bit pattern — a Python float is
exactly such a value), strings, sets, dicts, lists and tuples.  Sets and
dicts are carried in iteration order; a Python set never contains two
equal elements and a dict never two equal keys. -/
inductive PyObj where
  | bool (b : Bool)
  | int (i : Int)
  | float (bits : Nat)
  | str (s : String)
  | set (elems : List PyObj)
  | dict (entries : List (PyObj × PyObj))
  | list (elems : List PyObj)
  | tuple (elems : List PyObj)

mutual

def PyObj.beq : PyObj → PyObj → Bool
  | .bool a, .bool b => a == b
  | .int a, .int b => a == b
  | .float a, .float b => a == b
  | .str a, .str b => a == b
  | .set a, .set b => PyObj.beqList a b
  | .dict a, .dict b => PyObj.beqPairs a b
  | .list a, .list b => PyObj.beqList a b
  | .tuple a, .tuple b => PyObj.beqList a b
  | _, _ => false

def PyObj.beqList : List PyObj → List PyObj → Bool
  | [], [] => true
  | a :: as1, b :: bs1 => PyObj.beq a b && PyObj.beqList as1 bs1
  | _, _ => false

def PyObj.beqPairs : List (PyObj × PyObj) → List (PyObj × PyObj) → Bool
  | [], [] => true
  | a :: as1, b :: bs1 => PyObj.beq a.1 b.1 && PyObj.beq a.2 b.2 && PyObj.beqPairs as1 bs1
  | _, _ => false

end

mutual

def PyObj.beq_refl : (a : PyObj) → PyObj.beq a a = true
  | .bool a => by simp [PyObj.beq]
  | .int a => by simp [PyObj.beq]
  | .float a => by simp [PyObj.beq]
  | .str a => by simp [PyObj.beq]
  | .set a => by simp [PyObj.beq]; exact PyObj.beqList_refl a
  | .dict a => by simp [PyObj.beq]; exact PyObj.beqPairs_refl a
  | .list a => by simp [PyObj.beq]; exact PyObj.beqList_refl a
  | .tuple a => by simp [PyObj.beq]; exact PyObj.beqList_refl a

def PyObj.beqList_refl : (l : List PyObj) → PyObj.beqList l l = true
  | [] => rfl
  | a :: as1 => by
    simp [PyObj.beqList]
    exact ⟨PyObj.beq_refl a, PyObj.beqList_refl as1⟩

def PyObj.beqPairs_refl : (l : List (PyObj × PyObj)) → PyObj.beqPairs l l = true
  | [] => rfl
  | a :: as1 => by
    simp [PyObj.beqPairs]
    exact ⟨⟨PyObj.beq_refl a.1, PyObj.beq_refl a.2⟩, PyObj.beqPairs_refl as1⟩

end

mutual

def PyObj.beq_sound : (a b : PyObj) → PyObj.beq a b = true → a = b
  | .bool a, .bool b => by simp [PyObj.beq]
  | .int a, .int b => by simp [PyObj.beq]
  | .float a, .float b => by simp [PyObj.beq]
  | .str a, .str b => by simp [PyObj.beq]
  | .set a, .set b => fun h => by
    rw [PyObj.beqList_sound a b (by simpa [PyObj.beq] using h)]
  | .dict a, .dict b => fun h => by
    rw [PyObj.beqPairs_sound a b (by simpa [PyObj.beq] using h)]
  | .list a, .list b => fun h => by
    rw [PyObj.beqList_sound a b (by simpa [PyObj.beq] using h)]
  | .tuple a, .tuple b => fun h => by
    rw [PyObj.beqList_sound a b (by simpa [PyObj.beq] using h)]
  | .bool _, .int _ => by simp [PyObj.beq]
  | .bool _, .float _ => by simp [PyObj.beq]
  | .bool _, .str _ => by simp [PyObj.beq]
  | .bool _, .set _ => by simp [PyObj.beq]
  | .bool _, .dict _ => by simp [PyObj.beq]
  | .bool _, .list _ => by simp [PyObj.beq]
  | .bool _, .tuple _ => by simp [PyObj.beq]
  | .int _, .bool _ => by simp [PyObj.beq]
  | .int _, .float _ => by simp [PyObj.beq]
  | .int _, .str _ => by simp [PyObj.beq]
  | .int _, .set _ => by simp [PyObj.beq]
  | .int _, .dict _ => by simp [PyObj.beq]
  | .int _, .list _ => by simp [PyObj.beq]
  | .int _, .tuple _ => by simp [PyObj.beq]
  | .float _, .bool _ => by simp [PyObj.beq]
  | .float _, .int _ => by simp [PyObj.beq]
  | .float _, .str _ => by simp [PyObj.beq]
  | .float _, .set _ => by simp [PyObj.beq]
  | .float _, .dict _ => by simp [PyObj.beq]
  | .float _, .list _ => by simp [PyObj.beq]
  | .float _, .tuple _ => by simp [PyObj.beq]
  | .str _, .bool _ => by simp [PyObj.beq]
  | .str _, .int _ => by simp [PyObj.beq]
  | .str _, .float _ => by simp [PyObj.beq]
  | .str _, .set _ => by simp [PyObj.beq]
  | .str _, .dict _ => by simp [PyObj.beq]
  | .str _, .list _ => by simp [PyObj.beq]
  | .str _, .tuple _ => by simp [PyObj.beq]
  | .set _, .bool _ => by simp [PyObj.beq]
  | .set _, .int _ => by simp [PyObj.beq]
  | .set _, .float _ => by simp [PyObj.beq]
  | .set _, .str _ => by simp [PyObj.beq]
  | .set _, .dict _ => by simp [PyObj.beq]
  | .set _, .list _ => by simp [PyObj.beq]
  | .set _, .tuple _ => by simp [PyObj.beq]
  | .dict _, .bool _ => by simp [PyObj.beq]
  | .dict _, .int _ => by simp [PyObj.beq]
  | .dict _, .float _ => by simp [PyObj.beq]
  | .dict _, .str _ => by simp [PyObj.beq]
  | .dict _, .set _ => by simp [PyObj.beq]
  | .dict _, .list _ => by simp [PyObj.beq]
  | .dict _, .tuple _ => by simp [PyObj.beq]
  | .list _, .bool _ => by simp [PyObj.beq]
  | .list _, .int _ => by simp [PyObj.beq]
  | .list _, .float _ => by simp [PyObj.beq]
  | .list _, .str _ => by simp [PyObj.beq]
  | .list _, .set _ => by simp [PyObj.beq]
  | .list _, .dict _ => by simp [PyObj.beq]
  | .list _, .tuple _ => by simp [PyObj.beq]
  | .tuple _, .bool _ => by simp [PyObj.beq]
  | .tuple _, .int _ => by simp [PyObj.beq]
  | .tuple _, .float _ => by simp [PyObj.beq]
  | .tuple _, .str _ => by simp [PyObj.beq]
  | .tuple _, .set _ => by simp [PyObj.beq]
  | .tuple _, .dict _ => by simp [PyObj.beq]
  | .tuple _, .list _ => by simp [PyObj.beq]

def PyObj.beqList_sound : (a b : List PyObj) → PyObj.beqList a b = true → a = b
  | [], [] => fun _ => rfl
  | a :: as1, b :: bs1 => fun h => by
    have h2 := h
    simp only [PyObj.beqList, Bool.and_eq_true] at h2
    rw [PyObj.beq_sound a b h2.1, PyObj.beqList_sound as1 bs1 h2.2]
  | [], _ :: _ => by simp [PyObj.beqList]
  | _ :: _, [] => by simp [PyObj.beqList]

def PyObj.beqPairs_sound : (a b : List (PyObj × PyObj)) → PyObj.beqPairs a b = true → a = b
  | [], [] => fun _ => rfl
  | a :: as1, b :: bs1 => fun h => by
    have h2 := h
    simp only [PyObj.beqPairs, Bool.and_eq_true] at h2
    have hk := PyObj.beq_sound a.1 b.1 h2.1.1
    have hv := PyObj.beq_sound a.2 b.2 h2.1.2
    have ht := PyObj.beqPairs_sound as1 bs1 h2.2
    rw [Prod.ext hk hv, ht]
  | [], _ :: _ => by simp [PyObj.beqPairs]
  | _ :: _, [] => by simp [PyObj.beqPairs]

end

instance : DecidableEq PyObj := fun a b =>
  if h : PyObj.beq a b = true then .isTrue (PyObj.beq_sound a b h)
  else .isFalse (fun he => h (he ▸ PyObj.beq_refl a))

/-- `type(obj)`. -/
def PyObj.typeOf : PyObj → PyType
  | .bool _ => .bool
  | .int _ => .int
  | .float _ => .float
  | .str _ => .str
  | .set _ => .set
  | .dict _ => .dict
  | .list _ => .list
  | .tuple _ => .tuple

/-- Python truthiness of a value (used by `struct.pack`'s `?` format,
which packs the truth value of any object). -/
def pyTruthy : PyObj → Bool
  | .bool b => b
  | .int i => decide (i ≠ 0)
  | .float bits => decide (¬ (bits = 0 ∨ bits = 2 ^ 63))
  | .str s => ! s.isEmpty
  | .set l => ! l.isEmpty
  | .dict l => ! l.isEmpty
  | .list l => ! l.isEmpty
  | .tuple l => ! l.isEmpty

/-- `struct.pack('h', n)`: two little-endian bytes of the two's
complement of `n`; out of range raises `struct.error`. -/
def packH (n : Int) : Except PyErr (List Nat) :=
  if n < -32768 ∨ 32767 < n then .error .structError
  else .ok [(n % 65536).toNat % 256, (n % 65536).toNat / 256]

/-- `struct.unpack('h', data.read(2))`: reads two bytes (fewer raises
`struct.error`) and sign-extends. -/
def unpackH : List Nat → Except PyErr (Int × List Nat)
  | b0 :: b1 :: rest =>
    let m : Nat := (b0 + 256 * b1) % 65536
    .ok (if m < 32768 then (m : Int) else (m : Int) - 65536, rest)
  | _ => .error .structError

/-- `struct.pack('i', n)`: four little-endian bytes; out of range raises
`struct.error`. -/
def packI (n : Int) : Except PyErr (List Nat) :=
  if n < -(2 ^ 31 : Int) ∨ (2 ^ 31 : Int) - 1 < n then .error .structError
  else
    let m := (n % (2 ^ 32 : Int)).toNat
    .ok [m % 256, m / 2 ^ 8 % 256, m / 2 ^ 16 % 256, m / 2 ^ 24 % 256]

/-- `struct.unpack('i', data.read(4))`. -/
def unpackI : List Nat → Except PyErr (Int × List Nat)
  | b0 :: b1 :: b2 :: b3 :: rest =>
    let m : Nat := (b0 + 2 ^ 8 * b1 + 2 ^ 16 * b2 + 2 ^ 24 * b3) % 2 ^ 32
    .ok (if m < 2 ^ 31 then (m : Int) else (m : Int) - 2 ^ 32, rest)
  | _ => .error .structError

/-- `struct.pack('d', x)`: the eight little-endian bytes of the IEEE-754
binary64 pattern of the float. -/
def packD (bits : Nat) : List Nat :=
  [bits % 256, bits / 2 ^ 8 % 256, bits / 2 ^ 16 % 256, bits / 2 ^ 24 % 256,
    bits / 2 ^ 32 % 256, bits / 2 ^ 40 % 256, bits / 2 ^ 48 % 256, bits / 2 ^ 56 % 256]

/-- `struct.unpack('d', data.read(8))`. -/
def unpackD : List Nat → Except PyErr (Nat × List Nat)
  | b0 :: b1 :: b2 :: b3 :: b4 :: b5 :: b6 :: b7 :: rest =>
    .ok ((b0 + 2 ^ 8 * b1 + 2 ^ 16 * b2 + 2 ^ 24 * b3 + 2 ^ 32 * b4 + 2 ^ 40 * b5 +
      2 ^ 48 * b6 + 2 ^ 56 * b7) % 2 ^ 64, rest)
  | _ => .error .structError

/-! ### UTF-8, as used by `bytes(obj, "UTF-8")` and `.decode("UTF-8")` -/

/-- UTF-8 encoding of one Unicode scalar value. -/
def utf8EncodeChar (c : Char) : List Nat :=
  let v := c.toNat
  if v < 128 then [v]
  else if v < 2048 then [192 + v / 64, 128 + v % 64]
  else if v < 65536 then [224 + v / 4096, 128 + v / 64 % 64, 128 + v % 64]
  else [240 + v / 262144, 128 + v / 4096 % 64, 128 + v / 64 % 64, 128 + v % 64]

/-- `bytes(s, "UTF-8")`. -/
def utf8Encode (s : String) : List Nat := (s.data.map utf8EncodeChar).flatten

/-- A UTF-8 continuation byte. -/
def isUTF8Cont (b : Nat) : Bool := 128 ≤ b && b < 192

/-- UTF-8 decoding with an explicit budget (the list length suffices):
rejects truncated sequences, stray continuation bytes, overlong forms,
surrogates and out-of-range values, like Python's strict `.decode`. -/
def utf8DecodeF : Nat → List Nat → Option (List Char)
  | _, [] => some []
  | 0, _ :: _ => Option.none
  | f + 1, b :: rest =>
    if b < 128 then
      (utf8DecodeF f rest).map (fun cs => Char.ofNat b :: cs)
    else if b < 194 then Option.none
    else if b < 224 then
      match rest with
      | b1 :: rest2 =>
        if isUTF8Cont b1 then
          (utf8DecodeF f rest2).map (fun cs => Char.ofNat ((b - 192) * 64 + (b1 - 128)) :: cs)
        else Option.none
      | [] => Option.none
    else if b < 240 then
      match rest with
      | b1 :: b2 :: rest2 =>
        let v := (b - 224) * 4096 + (b1 - 128) * 64 + (b2 - 128)
        if isUTF8Cont b1 && isUTF8Cont b2 && 2048 ≤ v && ! (55296 ≤ v && v < 57344) then
          (utf8DecodeF f rest2).map (fun cs => Char.ofNat v :: cs)
        else Option.none
      | _ => Option.none
    else if b < 245 then
      match rest with
      | b1 :: b2 :: b3 :: rest2 =>
        let v := (b - 240) * 262144 + (b1 - 128) * 4096 + (b2 - 128) * 64 + (b3 - 128)
        if isUTF8Cont b1 && isUTF8Cont b2 && isUTF8Cont b3 && 65536 ≤ v && v < 1114112 then
          (utf8DecodeF f rest2).map (fun cs => Char.ofNat v :: cs)
        else Option.none
      | _ => Option.none
    else Option.none

/-- `bs.decode("UTF-8")`. -/
def utf8Decode (bs : List Nat) : Option (List Char) := utf8DecodeF bs.length bs

/-! ### The codec set and the dispatching `Loader` -/

/-- The serializer classes of `pybran/serializers.py` bound in the
loader's `serializer_registry`.  (`DefaultSerializer`, the reflective
struct codec, is written against a `name_registry` that
`pybran/decorators.py` does not define and is outside the claims
considered here.)  Codec instances are pooled but stateless, so the pool
is observationally irrelevant and not modelled. -/
inductive SerKind where
  | BoolSerializer
  | IntSerializer
  | FloatSerializer
  | StringSerializer
  | SetSerializer
  | MappingSerializer
  | ArraySerializer
  deriving DecidableEq

/-- `DEFAULT_SERIALIZER_REGISTRY` from `pybran/loaders.py`. -/
def DEFAULT_SERIALIZER_REGISTRY : List (PyType × SerKind) :=
  [(.bool, .BoolSerializer), (.int, .IntSerializer), (.float, .FloatSerializer),
    (.str, .StringSerializer), (.set, .SetSerializer), (.dict, .MappingSerializer),
    (.list, .ArraySerializer), (.tuple, .ArraySerializer)]

/-- A `Loader`: its serializer registry (type -> serializer class). -/
structure Loader where
  serializer_registry : List (PyType × SerKind)
  deriving DecidableEq

/-- `Loader()` with the default registry. -/
def defaultLoader : Loader := ⟨DEFAULT_SERIALIZER_REGISTRY⟩

/-- `Loader.get_serializer(cls)`: raises `BranSerializerException` when no
serializer is registered for `cls` (in particular for `None` or for a
non-type). -/
def Loader.get_serializer (L : Loader) (cls : Option RVal) : Except PyErr SerKind :=
  match cls with
  | some (.ty t) =>
    match dictGet L.serializer_registry t with
    | some k => .ok k
    | Option.none => .error .serializer
  | _ => .error .serializer

/-- A pending call in the serialization recursion: a `loader.serialize`
call, a `serializer.serialize` body, or one of the three per-element
loops. -/
inductive SReq where
  | obj (obj : PyObj)
  | withKind (k : SerKind) (obj : PyObj)
  | setElems (elems : List PyObj)
  | mapElems (entries : List (PyObj × PyObj))
  | arrElems (elems : List PyObj) (i : Nat)

/-- The serialization recursion of `Loader.serialize` and the
`serialize` methods of the codec set, with an explicit recursion budget
(Python's recursion limit; `.error .recursion` is `RecursionError`).
`tagging` is the `kwargs` flag, passed through every recursive call. -/
def serCore (L : Loader) (tg : Bool) : Nat → DecState → SReq → Except PyErr (DecState × List Nat)
  | 0, _, _ => .error .recursion
  | fuel + 1, s, req =>
    match req with
    | .obj obj => do
      let cls := obj.typeOf
      let (s, tagB) ←
        if tg then do
          let intSer ← L.get_serializer (some (.ty .int))
          let (s, idv) ← typeGet s (.ty cls) true
          match idv with
          | some (.int n) => serCore L tg fuel s (.withKind intSer (.int n))
          | _ => .error .typeError
        else .ok (s, ([] : List Nat))
      let ser ← L.get_serializer (some (.ty cls))
      let (s, payload) ← serCore L tg fuel s (.withKind ser obj)
      .ok (s, tagB ++ payload)
    | .withKind k obj =>
      match k, obj with
      | .BoolSerializer, o => .ok (s, [if pyTruthy o then 1 else 0])
      | .IntSerializer, .int i => (packI i).map (fun b => (s, b))
      | .IntSerializer, .bool b => (packI (if b then 1 else 0)).map (fun bb => (s, bb))
      | .IntSerializer, _ => .error .structError
      | .FloatSerializer, .float bits => .ok (s, packD bits)
      | .FloatSerializer, _ => .error .typeError
      | .StringSerializer, .str t =>
        (packH (t.length : Int)).map (fun h => (s, h ++ utf8Encode t))
      | .StringSerializer, _ => .error .typeError
      | .SetSerializer, .set elems => do
        let cnt ← packH (elems.length : Int)
        let (s, body) ← serCore L tg fuel s (.setElems elems)
        .ok (s, cnt ++ body)
      | .SetSerializer, _ => .error .typeError
      | .MappingSerializer, .dict entries => do
        let cnt ← packH (entries.length : Int)
        let (s, body) ← serCore L tg fuel s (.mapElems entries)
        .ok (s, cnt ++ body)
      | .MappingSerializer, _ => .error .typeError
      | .ArraySerializer, .list elems => do
        let cnt ← packH (elems.length : Int)
        let (s, body) ← serCore L tg fuel s (.arrElems elems 0)
        .ok (s, cnt ++ body)
      | .ArraySerializer, .tuple elems => do
        let cnt ← packH (elems.length : Int)
        let (s, body) ← serCore L tg fuel s (.arrElems elems 0)
        .ok (s, cnt ++ body)
      | .ArraySerializer, _ => .error .typeError
    | .setElems elems =>
      match elems with
      | [] => .ok (s, [])
      | item :: rest => do
        let (s, idv) ← typeGet s (.ty item.typeOf) true
        let idB ← match idv with
          | some (.int n) => packH n
          | _ => .error .typeError
        let (s, itemB) ← serCore L tg fuel s (.obj item)
        let (s, restB) ← serCore L tg fuel s (.setElems rest)
        .ok (s, idB ++ itemB ++ restB)
    | .mapElems entries =>
      match entries with
      | [] => .ok (s, [])
      | kv :: rest => do
        let (s, kid) ← typeGet s (.ty kv.1.typeOf) true
        let kidB ← match kid with
          | some (.int n) => packH n
          | _ => .error .typeError
        let (s, keyB) ← serCore L tg fuel s (.obj kv.1)
        let (s, vid) ← typeGet s (.ty kv.2.typeOf) true
        let vidB ← match vid with
          | some (.int n) => packH n
          | _ => .error .typeError
        let (s, valB) ← serCore L tg fuel s (.obj kv.2)
        let (s, restB) ← serCore L tg fuel s (.mapElems rest)
        .ok (s, kidB ++ keyB ++ vidB ++ valB ++ restB)
    | .arrElems elems i =>
      match elems with
      | [] => .ok (s, [])
      | item :: rest => do
        let (s, idv) ← typeGet s (.ty item.typeOf) false
        let idB ← match idv with
          | some (.int n) => packH n
          | _ => .error .typeError
        let idxB ← packH (i : Int)
        let (s, itemB) ← serCore L tg fuel s (.obj item)
        let (s, restB) ← serCore L tg fuel s (.arrElems rest (i + 1))
        .ok (s, idB ++ idxB ++ itemB ++ restB)

/-- A pending call in the deserialization recursion. -/
inductive DReq where
  | obj (data : List Nat) (cls : Option RVal)
  | withKind (k : SerKind) (cls : Option RVal) (data : List Nat)
  | setElems (n : Nat) (acc : List PyObj) (data : List Nat)
  | mapElems (n : Nat) (acc : List (PyObj × PyObj)) (data : List Nat)
  | arrElems (n : Nat) (acc : List PyObj) (data : List Nat)

/-- The deserialization recursion of `Loader.deserialize` and the
`deserialize` methods of the codec set.  Deserialization never mutates
the registries (all lookups have `autoregister=False`), so only the
state is read.  The int codec's tagged-id decode always yields an int
under the default binding; other outcomes (reachable only by rebinding
the int codec) are not modelled further. -/
def desCore (L : Loader) (tg : Bool) : Nat → DecState → DReq → Except PyErr (PyObj × List Nat)
  | 0, _, _ => .error .recursion
  | fuel + 1, s, req =>
    match req with
    | .obj data cls =>
      if tg then do
        let intSer ← L.get_serializer (some (.ty .int))
        let (idObj, rest) ← desCore L tg fuel s (.withKind intSer Option.none data)
        match idObj with
        | .int n =>
          if dictContains s.type_registry (.int n) then do
            let (_, tv) ← typeGet s (.int n) false
            let ser ← L.get_serializer tv
            desCore L tg fuel s (.withKind ser tv rest)
          else .error .serializer
        | _ => .error .typeError
      else do
        let ser ← L.get_serializer cls
        desCore L tg fuel s (.withKind ser cls data)
    | .withKind k cls data =>
      match k with
      | .BoolSerializer =>
        match data with
        | b :: rest => .ok (.bool (decide (b ≠ 0)), rest)
        | [] => .error .structError
      | .IntSerializer => (unpackI data).map (fun p => (.int p.1, p.2))
      | .FloatSerializer => (unpackD data).map (fun p => (.float p.1, p.2))
      | .StringSerializer => do
        let (len, d1) ← unpackH data
        let n := if len < 0 then d1.length else len.toNat
        match utf8Decode (d1.take n) with
        | some cs => .ok (.str (String.mk cs), d1.drop n)
        | Option.none => .error .typeError
      | .SetSerializer => do
        let (len, d1) ← unpackH data
        desCore L tg fuel s (.setElems len.toNat [] d1)
      | .MappingSerializer => do
        let (len, d1) ← unpackH data
        desCore L tg fuel s (.mapElems len.toNat [] d1)
      | .ArraySerializer => do
        let (len, d1) ← unpackH data
        let res ← desCore L tg fuel s
          (.arrElems len.toNat ((List.range len.toNat).map (fun i => PyObj.int (Int.ofNat i))) d1)
        match res with
        | (.list l, rest) =>
          .ok (if cls = some (.ty .tuple) then .tuple l else .list l, rest)
        | _ => .error .typeError
    | .setElems n acc data =>
      match n with
      | 0 => .ok (.set acc, data)
      | n + 1 => do
        let (it, d1) ← unpackH data
        let (_, tv) ← typeGet s (.int it) false
        let (item, d2) ← desCore L tg fuel s (.obj d1 tv)
        desCore L tg fuel s
          (.setElems n (if acc.contains item then acc else acc ++ [item]) d2)
    | .mapElems n acc data =>
      match n with
      | 0 => .ok (.dict acc, data)
      | n + 1 => do
        let (kt, d1) ← unpackH data
        let (_, ktv) ← typeGet s (.int kt) false
        let (key, d2) ← desCore L tg fuel s (.obj d1 ktv)
        let (vt, d3) ← unpackH d2
        let (_, vtv) ← typeGet s (.int vt) false
        let (val, d4) ← desCore L tg fuel s (.obj d3 vtv)
        desCore L tg fuel s (.mapElems n (dictSet acc key val) d4)
    | .arrElems n acc data =>
      match n with
      | 0 => .ok (.list acc, data)
      | n + 1 => do
        let (it, d1) ← unpackH data
        let (idx, d2) ← unpackH d1
        let (_, tv) ← typeGet s (.int it) false
        let (item, d3) ← desCore L tg fuel s (.obj d2 tv)
        let pos : Int := if idx < 0 then (acc.length : Int) + idx else idx
        if 0 ≤ pos ∧ pos.toNat < acc.length then
          desCore L tg fuel s (.arrElems n (acc.set pos.toNat item) d3)
        else .error .typeError

mutual

/-- Node count of a value, the measure for the serializer's recursion
budget. -/
def PyObj.nodes : PyObj → Nat
  | .bool _ => 1
  | .int _ => 1
  | .float _ => 1
  | .str _ => 1
  | .set l => 1 + PyObj.nodesList l
  | .dict l => 1 + PyObj.nodesPairs l
  | .list l => 1 + PyObj.nodesList l
  | .tuple l => 1 + PyObj.nodesList l

/-- Node count of a list of values. -/
def PyObj.nodesList : List PyObj → Nat
  | [] => 1
  | a :: r => 1 + PyObj.nodes a + PyObj.nodesList r

/-- Node count of a list of pairs of values. -/
def PyObj.nodesPairs : List (PyObj × PyObj) → Nat
  | [] => 1
  | kv :: r => 1 + PyObj.nodes kv.1 + PyObj.nodes kv.2 + PyObj.nodesPairs r

end

/-- `Loader.serialize(obj, **kwargs)`: run the serialization recursion
with an always-sufficient budget. -/
def Loader.serialize (L : Loader) (s : DecState) (obj : PyObj) (tg : Bool) :
    Except PyErr (DecState × List Nat) :=
  serCore L tg (3 * PyObj.nodes obj + 8) s (.obj obj)

/-- `Loader.deserialize(data, cls, **kwargs)`: run the deserialization
recursion; every recursive level consumes input, so the budget is always
sufficient. -/
def Loader.deserialize (L : Loader) (s : DecState) (data : List Nat) (cls : Option RVal)
    (tg : Bool) : Except PyErr (PyObj × List Nat) :=
  desCore L tg (2 * data.length + 8) s (.obj data cls)

/-- The registry state of C1: `bool`, `int`, `float`, `str` registered in
the global type table (ids 1 to 4); every occurring type is bound to a
codec in the default loader. -/
def c1State : DecState :=
  typeAdd (typeAdd (typeAdd (typeAdd (DecState.mk [] 0 0 [] [] []) (.ty .bool) none)
    (.ty .int) none) (.ty .float) none) (.ty .str) none

/-- C1: round-trip through the default loader with tagging disabled and
the correct target type supplied, for the seven spec values — `True`,
`-7`, `2.5` (IEEE-754 binary64 pattern 0x4004000000000000), `"hello"`,
the set of `"x"` and `"y"`, the sequence `[1, True, "a"]` and the mapping
of `"k"` to `1` and `2` to `"v"` — with every element type occurring in
the value registered in the global type table.  Each value serializes
(leaving the registry unchanged) and deserializes back to an equal
value, consuming the payload exactly. -/
theorem default_roundtrip_seven_values :
    (∃ b, defaultLoader.serialize c1State (.bool true) false = .ok (c1State, b) ∧
      defaultLoader.deserialize c1State b (some (.ty .bool)) false = .ok (.bool true, [])) ∧
    (∃ b, defaultLoader.serialize c1State (.int (-7)) false = .ok (c1State, b) ∧
      defaultLoader.deserialize c1State b (some (.ty .int)) false = .ok (.int (-7), [])) ∧
    (∃ b, defaultLoader.serialize c1State (.float 4612811918334230528) false =
        .ok (c1State, b) ∧
      defaultLoader.deserialize c1State b (some (.ty .float)) false =
        .ok (.float 4612811918334230528, [])) ∧
    (∃ b, defaultLoader.serialize c1State (.str "hello") false = .ok (c1State, b) ∧
      defaultLoader.deserialize c1State b (some (.ty .str)) false = .ok (.str "hello", [])) ∧
    (∃ b, defaultLoader.serialize c1State (.set [.str "x", .str "y"]) false =
        .ok (c1State, b) ∧
      defaultLoader.deserialize c1State b (some (.ty .set)) false =
        .ok (.set [.str "x", .str "y"], [])) ∧
    (∃ b, defaultLoader.serialize c1State (.list [.int 1, .bool true, .str "a"]) false =
        .ok (c1State, b) ∧
      defaultLoader.deserialize c1State b (some (.ty .list)) false =
        .ok (.list [.int 1, .bool true, .str "a"], [])) ∧
    (∃ b, defaultLoader.serialize c1State (.dict [(.str "k", .int 1), (.int 2, .str "v")]) false =
        .ok (c1State, b) ∧
      defaultLoader.deserialize c1State b (some (.ty .dict)) false =
        .ok (.dict [(.str "k", .int 1), (.int 2, .str "v")], [])) := by
  exact ⟨⟨_, rfl, rfl⟩, ⟨_, rfl, rfl⟩, ⟨_, rfl, rfl⟩, ⟨_, rfl, rfl⟩, ⟨_, rfl, rfl⟩,
    ⟨_, rfl, rfl⟩, ⟨_, rfl, rfl⟩⟩

/-- C7: `Loader.deserialize` with tagging first decodes an integer type
id from the input.  The caller-supplied target type is ignored entirely;
an id with no entry in the global type table raises
`BranSerializerException`; a registered id resolves through the table,
overriding the target, and decoding proceeds with the resolved type's
codec. -/
theorem deserialize_tagged_spec (s : DecState) (data rest : List Nat) (n : Int)
    (cls cls2 : Option RVal) (hU : unpackI data = .ok (n, rest)) :
    (defaultLoader.deserialize s data cls true = defaultLoader.deserialize s data cls2 true) ∧
    (dictContains s.type_registry (.int n) = false →
      defaultLoader.deserialize s data cls true = .error .serializer) ∧
    (∀ v, dictGet s.type_registry (.int n) = some v →
      defaultLoader.deserialize s data cls true =
        Bind.bind (defaultLoader.get_serializer (some v)) (fun ser =>
          desCore defaultLoader true (2 * data.length + 7) s (.withKind ser (some v) rest))) := by
  match data with
  | [] => exact absurd hU (by simp [unpackI])
  | [b0] => exact absurd hU (by simp [unpackI])
  | [b0, b1] => exact absurd hU (by simp [unpackI])
  | [b0, b1, b2] => exact absurd hU (by simp [unpackI])
  | b0 :: b1 :: b2 :: b3 :: rest0 =>
    have hn : n = (if (b0 + 2 ^ 8 * b1 + 2 ^ 16 * b2 + 2 ^ 24 * b3) % 2 ^ 32 < 2 ^ 31
        then (((b0 + 2 ^ 8 * b1 + 2 ^ 16 * b2 + 2 ^ 24 * b3) % 2 ^ 32 : Nat) : Int)
        else (((b0 + 2 ^ 8 * b1 + 2 ^ 16 * b2 + 2 ^ 24 * b3) % 2 ^ 32 : Nat) : Int) - 2 ^ 32) ∧
        rest = rest0 := by
      have := hU
      simp only [unpackI, Except.ok.injEq, Prod.mk.injEq] at this
      exact ⟨this.1.symm, this.2.symm⟩
    obtain ⟨hn1, hn2⟩ := hn
    subst hn1
    subst hn2
    refine ⟨rfl, ?_, ?_⟩
    · intro h
      show (if dictContains s.type_registry (.int _) = true then _ else _) = _
      rw [if_neg (by rw [h]; exact fun hh => nomatch hh)]
    · intro v hv
      have hc : dictContains s.type_registry
          (.int (if (b0 + 2 ^ 8 * b1 + 2 ^ 16 * b2 + 2 ^ 24 * b3) % 2 ^ 32 < 2 ^ 31
            then (((b0 + 2 ^ 8 * b1 + 2 ^ 16 * b2 + 2 ^ 24 * b3) % 2 ^ 32 : Nat) : Int)
            else (((b0 + 2 ^ 8 * b1 + 2 ^ 16 * b2 + 2 ^ 24 * b3) % 2 ^ 32 : Nat) : Int) -
              2 ^ 32)) = true :=
        (dictContains_iff_get _ _).mpr (by rw [hv]; rfl)
      show (if dictContains s.type_registry (.int _) = true then _ else _) = _
      rw [if_pos hc, typeGet_of_entry s _ v hv]
      rfl

/-- Witness for C7: an unknown tag 9 over an empty registry raises the
serializer error; a tag 1 bound to `bool` dispatches to the bool codec. -/
theorem deserialize_tagged_spec_witness :
    (defaultLoader.deserialize (DecState.mk [] 0 0 [] [] []) [9, 0, 0, 0, 1]
        Option.none true = .error .serializer) ∧
    (defaultLoader.deserialize
        (DecState.mk [(.ty .bool, .int 1), (.int 1, .ty .bool)] 1 0 [] [] [])
        [1, 0, 0, 0, 1] Option.none true =
      Bind.bind (defaultLoader.get_serializer (some (.ty .bool))) (fun ser =>
        desCore defaultLoader true (2 * [1, 0, 0, 0, 1].length + 7)
          (DecState.mk [(.ty .bool, .int 1), (.int 1, .ty .bool)] 1 0 [] [] [])
          (.withKind ser (some (.ty .bool)) [1]))) :=
  ⟨(deserialize_tagged_spec (DecState.mk [] 0 0 [] [] []) [9, 0, 0, 0, 1] [1] 9
      Option.none Option.none rfl).2.1 rfl,
    (deserialize_tagged_spec (DecState.mk [(.ty .bool, .int 1), (.int 1, .ty .bool)] 1 0 [] [] [])
      [1, 0, 0, 0, 1] [1] 1 Option.none Option.none rfl).2.2 (.ty .bool) rfl⟩

/-- Splitting a successful `Except` bind. -/
theorem bind_eq_ok {α β : Type u} {x : Except PyErr α} {f : α → Except PyErr β} {r : β}
    (h : Bind.bind x f = .ok r) : ∃ a, x = .ok a ∧ f a = .ok r := by
  cases x with
  | ok a => exact ⟨a, rfl, h⟩
  | error e => exact absurd h (by intro hh; cases hh)

/-- `type_registry.get(k, autoregister=True)` never fails: it returns the
state extended by `add` (a no-op when the key is present) and the looked
up value. -/
theorem typeGet_auto_eq (s : DecState) (k : RVal) :
    typeGet s k true =
      .ok (typeAdd s k none, dictGet (typeAdd s k none).type_registry k) := by
  unfold typeGet Registry.get typeAdd
  by_cases hc : (s.typeReg).contains k
  · rw [if_pos hc]
    unfold Registry.add
    rw [if_pos hc]
  · rw [if_neg hc, if_pos rfl]

/-- Layout of set-element serialization, written from the amended claim:
per element, the element's type is auto-registered in the global type
table if new (`typeAdd`), its id (read back from the updated table) is
written as a 2-byte value, and the element's own bytes follow, produced
recursively through the dispatcher.  The budget index mirrors the
recursion budget of the serializer. -/
inductive SetElemsBytes (L : Loader) (tg : Bool) :
    Nat → DecState → List PyObj → DecState → List Nat → Prop
  | nil (fuel : Nat) (s : DecState) : SetElemsBytes L tg fuel s [] s []
  | cons (fuel : Nat) (s s2 s3 : DecState) (item : PyObj) (rest : List PyObj)
      (id : Int) (idB itemB restB : List Nat) :
      dictGet (typeAdd s (.ty item.typeOf) none).type_registry (.ty item.typeOf) =
        some (.int id) →
      packH id = .ok idB →
      serCore L tg fuel (typeAdd s (.ty item.typeOf) none) (.obj item) = .ok (s2, itemB) →
      SetElemsBytes L tg fuel s2 rest s3 restB →
      SetElemsBytes L tg (fuel + 1) s (item :: rest) s3 (idB ++ itemB ++ restB)

/-- Layout of sequence-element serialization, written from the amended
claim: per element, the element's type id is looked up in the global
type table with no auto-registration (the state is untouched, and a miss
is a `RegistrationError`, so a successful run implies the type was
already registered), the id and then the element's 2-byte index are
written, and the element's own bytes follow, produced recursively
through the dispatcher. -/
inductive ArrElemsBytes (L : Loader) (tg : Bool) :
    Nat → Nat → DecState → List PyObj → DecState → List Nat → Prop
  | nil (fuel i : Nat) (s : DecState) : ArrElemsBytes L tg fuel i s [] s []
  | cons (fuel i : Nat) (s s2 s3 : DecState) (item : PyObj) (rest : List PyObj)
      (id : Int) (idB idxB itemB restB : List Nat) :
      dictGet s.type_registry (.ty item.typeOf) = some (.int id) →
      packH id = .ok idB →
      packH (i : Int) = .ok idxB →
      serCore L tg fuel s (.obj item) = .ok (s2, itemB) →
      ArrElemsBytes L tg fuel (i + 1) s2 rest s3 restB →
      ArrElemsBytes L tg (fuel + 1) i s (item :: rest) s3 (idB ++ idxB ++ itemB ++ restB)

/-- The set-element loop of `SetSerializer.serialize` refines
`SetElemsBytes`. -/
theorem setElems_layout (L : Loader) (tg : Bool) :
    ∀ (elems : List PyObj) (fuel : Nat) (s s2 : DecState) (body : List Nat),
      serCore L tg fuel s (.setElems elems) = .ok (s2, body) →
      SetElemsBytes L tg fuel s elems s2 body := by
  intro elems
  induction elems with
  | nil =>
    intro fuel s s2 body h
    match fuel with
    | 0 => exact absurd h (by intro hh; cases hh)
    | f + 1 =>
      simp only [serCore, Except.ok.injEq, Prod.mk.injEq] at h
      rw [← h.1, ← h.2]
      exact .nil (f + 1) s
  | cons item rest ih =>
    intro fuel s s2 body h
    match fuel with
    | 0 => exact absurd h (by intro hh; cases hh)
    | f + 1 =>
      simp only [serCore] at h
      rw [typeGet_auto_eq s (.ty item.typeOf)] at h
      simp only [bind_ok_eq] at h
      split at h
      case _ n heq =>
        obtain ⟨idB, hid, h⟩ := bind_eq_ok h
        obtain ⟨⟨s2p, itemB⟩, hitem, h⟩ := bind_eq_ok h
        obtain ⟨⟨s3p, restB⟩, hrest, h⟩ := bind_eq_ok h
        simp only [Except.ok.injEq, Prod.mk.injEq] at h
        obtain ⟨h1, h2⟩ := h
        subst h1
        subst h2
        exact .cons f s s2p s3p item rest n idB itemB restB heq hid hitem
          (ih f s2p s3p restB hrest)
      case _ x hx =>
        rw [bind_error_eq] at h
        cases h

/-- The array-element loop of `ArraySerializer.serialize` refines
`ArrElemsBytes`. -/
theorem arrElems_layout (L : Loader) (tg : Bool) :
    ∀ (elems : List PyObj) (fuel i : Nat) (s s2 : DecState) (body : List Nat),
      serCore L tg fuel s (.arrElems elems i) = .ok (s2, body) →
      ArrElemsBytes L tg fuel i s elems s2 body := by
  intro elems
  induction elems with
  | nil =>
    intro fuel i s s2 body h
    match fuel with
    | 0 => exact absurd h (by intro hh; cases hh)
    | f + 1 =>
      simp only [serCore, Except.ok.injEq, Prod.mk.injEq] at h
      rw [← h.1, ← h.2]
      exact .nil (f + 1) i s
  | cons item rest ih =>
    intro fuel i s s2 body h
    match fuel with
    | 0 => exact absurd h (by intro hh; cases hh)
    | f + 1 =>
      simp only [serCore] at h
      by_cases hc : dictContains s.type_registry (.ty item.typeOf)
      · obtain ⟨v, hv⟩ : ∃ v, dictGet s.type_registry (.ty item.typeOf) = some v := by
          have hs := (dictContains_iff_get _ _).mp hc
          cases hg : dictGet s.type_registry (.ty item.typeOf) with
          | none => rw [hg] at hs; cases hs
          | some v => exact ⟨v, rfl⟩
        rw [typeGet_of_entry s _ v hv] at h
        simp only [bind_ok_eq] at h
        split at h
        case _ n heq =>
          obtain ⟨idB, hid, h⟩ := bind_eq_ok h
          obtain ⟨idxB, hidx, h⟩ := bind_eq_ok h
          obtain ⟨⟨s2p, itemB⟩, hitem, h⟩ := bind_eq_ok h
          obtain ⟨⟨s3p, restB⟩, hrest, h⟩ := bind_eq_ok h
          simp only [Except.ok.injEq, Prod.mk.injEq] at h
          obtain ⟨h1, h2⟩ := h
          subst h1
          subst h2
          refine .cons f i s s2p s3p item rest n idB idxB itemB restB ?_ hid hidx hitem
            (ih f (i + 1) s2p s3p restB hrest)
          rw [hv]
          exact heq
        case _ x hx =>
          rw [bind_error_eq] at h
          cases h
      · have hmiss : typeGet s (.ty item.typeOf) false = .error .registration := by
          unfold typeGet Registry.get
          rw [if_neg (by simpa [DecState.typeReg, Registry.contains] using hc),
            if_neg (by intro hh; cases hh)]
        rw [hmiss, bind_error_eq] at h
        cases h

/-- C8 counterexample: over an empty global type table, serializing the
sequence `[True]` raises a `RegistrationError`, because
`ArraySerializer.serialize` looks up the element type with no
auto-registration — while serializing the set containing `True` succeeds
and auto-registers `bool` (id 1).  This refutes the claim that both set
and sequence serialization auto-register element types. -/
theorem array_no_autoregister_counterexample :
    defaultLoader.serialize (DecState.mk [] 0 0 [] [] []) (.list [.bool true]) false =
      .error .registration ∧
    defaultLoader.serialize (DecState.mk [] 0 0 [] [] []) (.set [.bool true]) false =
      .ok (DecState.mk [(.ty .bool, .int 1), (.int 1, .ty .bool)] 1 0 [] [] [],
        [1, 0, 1, 0, 1]) := by
  exact ⟨rfl, rfl⟩

/-- C8 amended: serializing a set or an ordered sequence writes a 2-byte
element count, then per element a 2-byte element type id — for sets
auto-registering the element's type in the global type table if absent,
but for ordered sequences only looking it up, so the type must already
be registered — then, for ordered sequences only, a 2-byte element
index, then the element's own bytes produced recursively through the
dispatcher. -/
theorem collection_serialize_layout (L : Loader) (tg : Bool) (fuel : Nat)
    (s s2 : DecState) (elems : List PyObj) (bytes : List Nat) :
    (serCore L tg (fuel + 1) s (.withKind .SetSerializer (.set elems)) = .ok (s2, bytes) →
      ∃ cnt body, packH (elems.length : Int) = .ok cnt ∧ bytes = cnt ++ body ∧
        SetElemsBytes L tg fuel s elems s2 body) ∧
    (serCore L tg (fuel + 1) s (.withKind .ArraySerializer (.list elems)) = .ok (s2, bytes) →
      ∃ cnt body, packH (elems.length : Int) = .ok cnt ∧ bytes = cnt ++ body ∧
        ArrElemsBytes L tg fuel 0 s elems s2 body) ∧
    (serCore L tg (fuel + 1) s (.withKind .ArraySerializer (.tuple elems)) = .ok (s2, bytes) →
      ∃ cnt body, packH (elems.length : Int) = .ok cnt ∧ bytes = cnt ++ body ∧
        ArrElemsBytes L tg fuel 0 s elems s2 body) := by
  refine ⟨?_, ?_, ?_⟩ <;> intro h <;> simp only [serCore] at h <;>
    obtain ⟨cnt, hcnt, h⟩ := bind_eq_ok h <;>
    obtain ⟨⟨sp, body⟩, hbody, h⟩ := bind_eq_ok h <;>
    simp only [Except.ok.injEq, Prod.mk.injEq] at h <;>
    obtain ⟨h1, h2⟩ := h <;> subst h1 <;> rw [← h2]
  · exact ⟨cnt, body, hcnt, rfl, setElems_layout L tg elems fuel s sp body hbody⟩
  · exact ⟨cnt, body, hcnt, rfl, arrElems_layout L tg elems fuel 0 s sp body hbody⟩
  · exact ⟨cnt, body, hcnt, rfl, arrElems_layout L tg elems fuel 0 s sp body hbody⟩

/-- Witness for C8 amended: the set containing `True`, serialized over an
empty registry, yields count `[1,0]`, id `[1,0]` and payload `[1]`. -/
theorem collection_serialize_layout_witness :
    ∃ cnt body, packH (([PyObj.bool true] : List PyObj).length : Int) = .ok cnt ∧
      ([1, 0, 1, 0, 1] : List Nat) = cnt ++ body ∧
      SetElemsBytes defaultLoader false 9 (DecState.mk [] 0 0 [] [] []) [.bool true]
        (DecState.mk [(.ty .bool, .int 1), (.int 1, .ty .bool)] 1 0 [] [] []) body :=
  (collection_serialize_layout defaultLoader false 9 (DecState.mk [] 0 0 [] [] [])
    (DecState.mk [(.ty .bool, .int 1), (.int 1, .ty .bool)] 1 0 [] [] [])
    [.bool true] [1, 0, 1, 0, 1]).1 rfl

/-! ### Helper lemmas for the round-trip development -/

theorem dictGet_append_left [DecidableEq α] (l l2 : List (α × β)) (k : α) (v : β)
    (h : dictGet l k = some v) : dictGet (l ++ l2) k = some v := by
  induction l with
  | nil => simp at h
  | cons p rest ih =>
    rw [dictGet_cons] at h
    rw [List.cons_append, dictGet_cons]
    by_cases hp : p.1 = k
    · simpa [hp] using h
    · rw [if_neg hp] at h ⊢
      exact ih h

theorem dictSet_of_not_contains [DecidableEq α] (l : List (α × β)) (k : α) (v : β)
    (h : dictContains l k = false) : dictSet l k v = l ++ [(k, v)] := by
  unfold dictSet
  rw [if_neg (by simp [h])]

theorem dictGet_mem [DecidableEq α] (l : List (α × β)) (k : α) (v : β)
    (h : dictGet l k = some v) : (k, v) ∈ l := by
  induction l with
  | nil => simp at h
  | cons p rest ih =>
    rw [dictGet_cons] at h
    obtain ⟨a, b⟩ := p
    by_cases hp : a = k
    · rw [if_pos hp] at h
      simp only [Option.some.injEq] at h
      subst hp
      subst h
      exact List.mem_cons_self _ _
    · rw [if_neg hp] at h
      exact List.mem_cons_of_mem _ (ih h)

/-- Two-byte round trip: `unpackH` after a successful `packH`. -/
theorem unpackH_packH (n : Int) (b rest : List Nat) (h : packH n = .ok b) :
    unpackH (b ++ rest) = .ok (n, rest) := by
  unfold packH at h
  by_cases hr : n < -32768 ∨ 32767 < n
  · rw [if_pos hr] at h; cases h
  · rw [if_neg hr] at h
    push_neg at hr
    simp only [Except.ok.injEq] at h
    subst h
    have h0 : (0 : Int) ≤ n % 65536 := Int.emod_nonneg n (by norm_num)
    have h1 : n % 65536 < 65536 := Int.emod_lt_of_pos n (by norm_num)
    have hm : ((n % 65536).toNat % 256) + 256 * ((n % 65536).toNat / 256) =
        (n % 65536).toNat := by omega
    unfold unpackH
    simp only [List.cons_append, Except.ok.injEq, Prod.mk.injEq]
    constructor
    · have hlt : (n % 65536).toNat < 65536 := by omega
      rw [hm, Nat.mod_eq_of_lt hlt]
      have hcast : (((n % 65536).toNat : Int)) = n % 65536 := Int.toNat_of_nonneg h0
      have hmod : n % 65536 = n - 65536 * (n / 65536) := by
        rw [Int.emod_def]
      by_cases hn : (n % 65536).toNat < 32768
      · rw [if_pos hn]
        omega
      · rw [if_neg hn]
        omega
    · rfl

/-- Four-byte round trip: `unpackI` after a successful `packI`. -/
theorem unpackI_packI (n : Int) (b rest : List Nat) (h : packI n = .ok b) :
    unpackI (b ++ rest) = .ok (n, rest) := by
  unfold packI at h
  by_cases hr : n < -(2 ^ 31 : Int) ∨ (2 ^ 31 : Int) - 1 < n
  · rw [if_pos hr] at h; cases h
  · rw [if_neg hr] at h
    push_neg at hr
    simp only [Except.ok.injEq] at h
    subst h
    have h0 : (0 : Int) ≤ n % (2 ^ 32 : Int) := Int.emod_nonneg n (by norm_num)
    have h1 : n % (2 ^ 32 : Int) < 2 ^ 32 := Int.emod_lt_of_pos n (by norm_num)
    set m := (n % (2 ^ 32 : Int)).toNat with hmdef
    have hmlt : m < 2 ^ 32 := by omega
    have hm : m % 256 + 2 ^ 8 * (m / 2 ^ 8 % 256) + 2 ^ 16 * (m / 2 ^ 16 % 256) +
        2 ^ 24 * (m / 2 ^ 24 % 256) = m := by omega
    unfold unpackI
    simp only [List.cons_append, Except.ok.injEq, Prod.mk.injEq]
    refine ⟨?_, rfl⟩
    rw [hm, Nat.mod_eq_of_lt hmlt]
    have hcast : ((m : Int)) = n % (2 ^ 32 : Int) := by
      rw [hmdef]
      exact Int.toNat_of_nonneg h0
    have hmod : n % (2 ^ 32 : Int) = n - 2 ^ 32 * (n / 2 ^ 32) := by
      rw [Int.emod_def]
    by_cases hn : m < 2 ^ 31
    · rw [if_pos hn]
      omega
    · rw [if_neg hn]
      omega

/-- Eight-byte round trip: `unpackD` after `packD`, for a genuine 64-bit
pattern. -/
theorem unpackD_packD (bits : Nat) (rest : List Nat) (h : bits < 2 ^ 64) :
    unpackD (packD bits ++ rest) = .ok (bits, rest) := by
  unfold packD unpackD
  simp only [List.cons_append, Except.ok.injEq, Prod.mk.injEq]
  refine ⟨?_, rfl⟩
  omega

/-- ASCII text encodes one byte per character. -/
theorem utf8Encode_ascii (cs : List Char) (h : ∀ c ∈ cs, c.toNat < 128) :
    (cs.map utf8EncodeChar).flatten = cs.map (fun c => c.toNat) := by
  induction cs with
  | nil => rfl
  | cons c r ih =>
    have hc : c.toNat < 128 := h c (List.mem_cons_self c r)
    simp only [List.map_cons, List.flatten_cons]
    rw [ih (fun x hx => h x (List.mem_cons_of_mem c hx))]
    unfold utf8EncodeChar
    rw [if_pos hc]
    rfl

/-- Decoding the one-byte-per-character form of ASCII text recovers it,
for any sufficient budget. -/
theorem utf8DecodeF_ascii (cs : List Char) (h : ∀ c ∈ cs, c.toNat < 128) :
    ∀ f : Nat, cs.length ≤ f →
      utf8DecodeF f (cs.map (fun c => c.toNat)) = some cs := by
  induction cs with
  | nil => intro f _; cases f <;> rfl
  | cons c r ih =>
    intro f hf
    match f with
    | 0 => simp at hf
    | f + 1 =>
      have hc : c.toNat < 128 := h c (List.mem_cons_self c r)
      simp only [List.map_cons, utf8DecodeF]
      rw [if_pos hc, ih (fun x hx => h x (List.mem_cons_of_mem c hx)) f (by simpa using hf)]
      simp [Char.ofNat_toNat]

/-- The well-formedness invariant of the global type table used by the
round-trip argument: keys are unique, every integer id occurring is
bounded by the allocator counter (so freshly generated ids are really
fresh), and every type binding has an integer id whose mirror binding
points back at the type. -/
structure WfTR (s : DecState) : Prop where
  nodup : (s.type_registry.map (fun p => p.1)).Nodup
  keyBound : ∀ p ∈ s.type_registry, ∀ n : Int, p.1 = RVal.int n → n ≤ (s.typeCounter : Int)
  valBound : ∀ p ∈ s.type_registry, ∀ n : Int, p.2 = RVal.int n → n ≤ (s.typeCounter : Int)
  tyVal : ∀ p ∈ s.type_registry, ∀ t : PyType, p.1 = RVal.ty t →
    ∃ n : Int, p.2 = RVal.int n ∧
      dictGet s.type_registry (RVal.int n) = some (RVal.ty t)

/-- The type table of `s2` extends that of `s` binding for binding. -/
def trSub (s s2 : DecState) : Prop :=
  ∀ k v, dictGet s.type_registry k = some v → dictGet s2.type_registry k = some v

theorem trSub_refl (s : DecState) : trSub s s := fun _ _ h => h

theorem trSub_trans {s s2 s3 : DecState} (h1 : trSub s s2) (h2 : trSub s2 s3) :
    trSub s s3 := fun k v h => h2 k v (h1 k v h)

theorem dictContains_false_iff [DecidableEq α] (l : List (α × β)) (k : α) :
    dictContains l k = false ↔ k ∉ l.map (fun p => p.1) := by
  rw [Bool.eq_false_iff, Ne, dictContains, List.any_eq_true]
  simp only [List.mem_map, decide_eq_true_eq]

theorem dictGet_append_right [DecidableEq α] (l l2 : List (α × β)) (k : α)
    (h : dictContains l k = false) : dictGet (l ++ l2) k = dictGet l2 k := by
  induction l with
  | nil => rfl
  | cons p rest ih =>
    rw [dictContains_cons] at h
    have hp : ¬ p.1 = k := by
      intro hh
      simp [hh] at h
    rw [List.cons_append, dictGet_cons, if_neg hp]
    exact ih (by simpa [hp] using h)

/-- Registering a type with `type_registry.add` preserves the invariant,
extends the table binding for binding, and leaves the type bound to an
integer id whose mirror binding points back at it. -/
theorem typeAdd_preserves (s : DecState) (t : PyType) (hwf : WfTR s) :
    WfTR (typeAdd s (.ty t) none) ∧ trSub s (typeAdd s (.ty t) none) ∧
      s.typeCounter ≤ (typeAdd s (.ty t) none).typeCounter ∧
      (∃ n : Int, dictGet (typeAdd s (.ty t) none).type_registry (.ty t) = some (.int n) ∧
        dictGet (typeAdd s (.ty t) none).type_registry (.int n) = some (.ty t)) := by
  by_cases hc : (s.typeReg).contains (.ty t)
  · have heq : typeAdd s (.ty t) none = s := by
      unfold typeAdd Registry.add
      rw [if_pos hc]
      rfl
    rw [heq]
    refine ⟨hwf, trSub_refl s, le_refl _, ?_⟩
    have hsome : (dictGet s.type_registry (.ty t)).isSome := by
      have := (dictContains_iff_get s.type_registry (.ty t)).mp hc
      exact this
    cases hg : dictGet s.type_registry (.ty t) with
    | none => rw [hg] at hsome; cases hsome
    | some v =>
      obtain ⟨n, hn, hmirror⟩ :=
        hwf.tyVal ((.ty t), v) (dictGet_mem _ _ _ hg) t rfl
      have hn2 : v = RVal.int n := hn
      subst hn2
      exact ⟨n, rfl, hmirror⟩
  · have hcd : dictContains s.type_registry (.ty t) = false := by
      cases h2 : dictContains s.type_registry (.ty t)
      · rfl
      · exact absurd h2 hc
    have hint : dictContains s.type_registry (.int ((s.typeCounter : Int) + 1)) = false := by
      cases h2 : dictContains s.type_registry (.int ((s.typeCounter : Int) + 1))
      · rfl
      · exfalso
        have hsome := (dictContains_iff_get _ _).mp h2
        cases hg : dictGet s.type_registry (.int ((s.typeCounter : Int) + 1)) with
        | none => rw [hg] at hsome; cases hsome
        | some v =>
          have hb := hwf.keyBound (_, v) (dictGet_mem _ _ _ hg) ((s.typeCounter : Int) + 1) rfl
          omega
    have hstate : typeAdd s (.ty t) none =
        { s with
          typeCounter := s.typeCounter + 1,
          type_registry := s.type_registry ++
            [(.ty t, .int ((s.typeCounter : Int) + 1)),
              (.int ((s.typeCounter : Int) + 1), .ty t)] } := by
      unfold typeAdd Registry.add
      rw [if_neg hc]
      simp only [typeIdGen, Registry.set, DecState.typeReg]
      rw [dictSet_of_not_contains _ _ _ hcd]
      have hgetA : dictGet (s.type_registry ++
          [((RVal.ty t), RVal.int ((s.typeCounter : Int) + 1))]) (.ty t) =
          some (.int ((s.typeCounter : Int) + 1)) := by
        rw [dictGet_append_right _ _ _ hcd, dictGet_cons, if_pos rfl]
      rw [hgetA]
      simp only [Option.getD_some]
      have hintA : dictContains (s.type_registry ++
          [((RVal.ty t), RVal.int ((s.typeCounter : Int) + 1))])
          (.int ((s.typeCounter : Int) + 1)) = false := by
        rw [dictContains_false_iff]
        simp only [List.map_append, List.mem_append]
        intro hmem
        rcases hmem with hmem | hmem
        · exact (dictContains_false_iff _ _).mp hint hmem
        · simp at hmem
      rw [dictSet_of_not_contains _ _ _ hintA, List.append_assoc]
      rfl
    rw [hstate]
    have hpushint : ((s.typeCounter + 1 : Nat) : Int) = (s.typeCounter : Int) + 1 := by
      push_cast
      rfl
    refine ⟨⟨?_, ?_, ?_, ?_⟩, ?_, by simp, ?_⟩
    · simp only [List.map_append]
      rw [List.nodup_append]
      refine ⟨hwf.nodup, by simp, ?_⟩
      intro a ha hb
      simp only [List.map_cons, List.map_nil, List.mem_cons, List.mem_singleton] at hb
      rcases hb with rfl | hb
      · exact (dictContains_false_iff _ _).mp hcd ha
      · simp only [List.not_mem_nil, or_false] at hb
        subst hb
        exact (dictContains_false_iff _ _).mp hint ha
    · intro p hp n hn
      simp only [List.mem_append, List.mem_cons, List.mem_singleton] at hp
      rcases hp with hp | hp | hp
      · have := hwf.keyBound p hp n hn
        simp only
        omega
      · subst hp
        cases hn
      · simp only [List.not_mem_nil, or_false] at hp
        subst hp
        simp only at hn
        cases hn
        simp only
        omega
    · intro p hp n hn
      simp only [List.mem_append, List.mem_cons, List.mem_singleton] at hp
      rcases hp with hp | hp | hp
      · have := hwf.valBound p hp n hn
        simp only
        omega
      · subst hp
        simp only at hn
        cases hn
        simp only
        omega
      · simp only [List.not_mem_nil, or_false] at hp
        subst hp
        cases hn
    · intro p hp t2 ht2
      simp only [List.mem_append, List.mem_cons, List.mem_singleton] at hp
      rcases hp with hp | hp | hp
      · obtain ⟨n, hn, hmirror⟩ := hwf.tyVal p hp t2 ht2
        exact ⟨n, hn, dictGet_append_left _ _ _ _ hmirror⟩
      · subst hp
        cases ht2
        refine ⟨(s.typeCounter : Int) + 1, rfl, ?_⟩
        rw [dictGet_append_right _ _ _ hint]
        rw [dictGet_cons, if_neg (by intro hh; cases hh), dictGet_cons, if_pos rfl]
      · simp only [List.not_mem_nil, or_false] at hp
        subst hp
        cases ht2
    · intro k v h
      exact dictGet_append_left _ _ _ _ h
    · refine ⟨(s.typeCounter : Int) + 1, ?_, ?_⟩
      · rw [dictGet_append_right _ _ _ hcd, dictGet_cons, if_pos rfl]
      · rw [dictGet_append_right _ _ _ hint]
        rw [dictGet_cons, if_neg (by intro hh; cases hh), dictGet_cons, if_pos rfl]

/-- Exponent all-ones with nonzero mantissa: an IEEE-754 binary64 NaN
(the one configuration where Python equality disagrees with bit
equality). -/
def isNaNBits (bits : Nat) : Bool :=
  decide (bits / 2 ^ 52 % 2 ^ 11 = 2047) && decide (bits % 2 ^ 52 ≠ 0)

mutual

/-- Values for which the byte-level round trip is exact and structural
equality agrees with Python equality: genuine 64-bit non-NaN floats,
ASCII text, duplicate-free sets and dict key sets, recursively. -/
def pySafe : PyObj → Bool
  | .bool _ => true
  | .int _ => true
  | .float bits => decide (bits < 2 ^ 64) && ! isNaNBits bits
  | .str t => t.data.all (fun c => decide (c.toNat < 128))
  | .set l => decide l.Nodup && pySafeList l
  | .dict l => decide ((l.map (fun p => p.1)).Nodup) && pySafePairs l
  | .list l => pySafeList l
  | .tuple l => pySafeList l

/-- All members safe. -/
def pySafeList : List PyObj → Bool
  | [] => true
  | a :: r => pySafe a && pySafeList r

/-- All keys and values safe. -/
def pySafePairs : List (PyObj × PyObj) → Bool
  | [] => true
  | kv :: r => pySafe kv.1 && pySafe kv.2 && pySafePairs r

end

/-- The index-directed placement loop of `ArraySerializer.deserialize`:
place the decoded elements at consecutive positions starting at `i`. -/
def listSetAll (acc : List PyObj) (i : Nat) : List PyObj → List PyObj
  | [] => acc
  | x :: r => listSetAll (acc.set i x) (i + 1) r

theorem list_set_append (x : PyObj) :
    ∀ (pre acc2 : List PyObj) (a : PyObj),
      (pre ++ a :: acc2).set pre.length x = pre ++ x :: acc2 := by
  intro pre
  induction pre with
  | nil => intro acc2 a; rfl
  | cons p ps ih => intro acc2 a; simp [List.set, ih acc2 a]

/-- Placing `l` into a buffer holding `pre` followed by `l.length`
placeholders yields `pre ++ l`. -/
theorem listSetAll_spec :
    ∀ (l pre acc : List PyObj), acc.length = l.length →
      listSetAll (pre ++ acc) pre.length l = pre ++ l := by
  intro l
  induction l with
  | nil =>
    intro pre acc hlen
    rw [List.length_eq_zero.mp hlen]
    rfl
  | cons x r ih =>
    intro pre acc hlen
    match acc with
    | [] => simp at hlen
    | a :: acc2 =>
      show listSetAll ((pre ++ a :: acc2).set pre.length x) (pre.length + 1) r = pre ++ x :: r
      rw [list_set_append x pre acc2 a]
      have h2 := ih (pre ++ [x]) acc2 (by simpa using hlen)
      simp only [List.append_assoc, List.singleton_append, List.length_append,
        List.length_singleton] at h2
      exact h2

/-- A successful serializer run had a positive budget. -/
theorem serCore_fuel_succ {L : Loader} {tg : Bool} {fuel : Nat} {s : DecState} {req : SReq}
    {r : DecState × List Nat} (h : serCore L tg fuel s req = .ok r) :
    ∃ f, fuel = f + 1 := by
  match fuel with
  | 0 => exact absurd h (by intro hh; cases hh)
  | f + 1 => exact ⟨f, rfl⟩

/-- Splitting a successful `Except.map`. -/
theorem map_eq_ok {α β : Type u} {x : Except PyErr α} {f : α → β} {r : β}
    (h : x.map f = .ok r) : ∃ a, x = .ok a ∧ f a = r := by
  cases x with
  | ok a =>
    refine ⟨a, rfl, ?_⟩
    simp only [Except.map] at h
    cases h
    rfl
  | error e => exact absurd h (by intro hh; cases hh)

/-- `packH` writes two bytes. -/
theorem packH_length {n : Int} {b : List Nat} (h : packH n = .ok b) : b.length = 2 := by
  unfold packH at h
  by_cases hr : n < -32768 ∨ 32767 < n
  · rw [if_pos hr] at h; cases h
  · rw [if_neg hr] at h
    cases h
    rfl

/-- `packI` writes four bytes. -/
theorem packI_length {n : Int} {b : List Nat} (h : packI n = .ok b) : b.length = 4 := by
  unfold packI at h
  by_cases hr : n < -(2 ^ 31 : Int) ∨ (2 ^ 31 : Int) - 1 < n
  · rw [if_pos hr] at h; cases h
  · rw [if_neg hr] at h
    cases h
    rfl

/-- The round-trip property of one value through the loader entry points
(the statement of the structural induction): a successful serialization
from a well-formed state preserves well-formedness, only extends the
type table, and the produced bytes deserialize back to the value from
any extension of that state, for any sufficient budget, consuming the
payload exactly.  Without tagging, the correct target type must be
supplied; with tagging, the target is ignored. -/
def RT (obj : PyObj) : Prop :=
  ∀ (tg : Bool) (fenc : Nat) (s s2 : DecState) (bytes : List Nat),
    WfTR s → pySafe obj = true →
    serCore defaultLoader tg fenc s (.obj obj) = .ok (s2, bytes) →
    WfTR s2 ∧ trSub s s2 ∧ s.typeCounter ≤ s2.typeCounter ∧
    ∀ (s3 : DecState), WfTR s3 → trSub s2 s3 →
    ∀ (fdec : Nat) (rest : List Nat) (cls : Option RVal),
      2 * bytes.length + 4 ≤ fdec →
      (tg = true ∨ cls = some (.ty obj.typeOf)) →
      desCore defaultLoader tg fdec s3 (.obj (bytes ++ rest) cls) = .ok (obj, rest)

/-- The round-trip property at the level of one codec (matching
serializer and deserializer bodies, with the matching target type). -/
def WK (obj : PyObj) (k : SerKind) : Prop :=
  ∀ (tg : Bool) (fenc : Nat) (s s2 : DecState) (payload : List Nat),
    WfTR s → pySafe obj = true →
    serCore defaultLoader tg fenc s (.withKind k obj) = .ok (s2, payload) →
    WfTR s2 ∧ trSub s s2 ∧ s.typeCounter ≤ s2.typeCounter ∧
    ∀ (s3 : DecState), WfTR s3 → trSub s2 s3 →
    ∀ (fdec : Nat) (rest : List Nat),
      2 * payload.length + 2 ≤ fdec →
      desCore defaultLoader tg fdec s3
        (.withKind k (some (.ty obj.typeOf)) (payload ++ rest)) = .ok (obj, rest)

/-- Lift the codec-level round trip through `Loader.serialize` /
`Loader.deserialize` dispatch, covering the tagging envelope: the tag is
the type's id, auto-registered before the payload is produced, and
decoding resolves it back through the mirror binding. -/
theorem rt_of_withKind (obj : PyObj) (k : SerKind)
    (hk : defaultLoader.get_serializer (some (.ty obj.typeOf)) = .ok k)
    (hwk : WK obj k) : RT obj := by
  intro tg fenc s s2 bytes hwf hsafe henc
  obtain ⟨fe, rfl⟩ := serCore_fuel_succ henc
  simp only [serCore] at henc
  cases tg with
  | false =>
    obtain ⟨⟨sA, tagB⟩, htag, henc⟩ := bind_eq_ok henc
    have htag2 : s = sA ∧ ([] : List Nat) = tagB := by
      simp only [Bool.false_eq_true, if_false, Except.ok.injEq, Prod.mk.injEq] at htag
      exact htag
    obtain ⟨h5, h6⟩ := htag2
    subst h5
    subst h6
    rw [hk, bind_ok_eq] at henc
    obtain ⟨⟨s2x, payload⟩, hpay, henc⟩ := bind_eq_ok henc
    simp only [Except.ok.injEq, Prod.mk.injEq, List.nil_append] at henc
    obtain ⟨h1, h2⟩ := henc
    subst h1
    subst h2
    obtain ⟨hwf2, hsub2, hcnt2, hdec⟩ := hwk false fe s s2x payload hwf hsafe hpay
    refine ⟨hwf2, hsub2, hcnt2, ?_⟩
    intro s3 hwf3 hsub3 fdec rest cls hfdec hcls
    have hcls2 : cls = some (.ty obj.typeOf) := by
      rcases hcls with h | h
      · cases h
      · exact h
    subst hcls2
    obtain ⟨g, rfl⟩ : ∃ g, fdec = g + 1 := ⟨fdec - 1, by omega⟩
    simp only [desCore, Bool.false_eq_true, if_false]
    rw [hk, bind_ok_eq]
    exact hdec s3 hwf3 hsub3 g rest (by omega)
  | true =>
    obtain ⟨intSer, hint, henc⟩ := bind_eq_ok henc
    have hIS : intSer = SerKind.IntSerializer := by
      injection hint with h
      exact h.symm
    subst hIS
    obtain ⟨⟨s1x, idv⟩, hget, henc⟩ := bind_eq_ok henc
    rw [typeGet_auto_eq s (.ty obj.typeOf)] at hget
    obtain ⟨hwf1, hsub1, hcnt1, nP, hidP, hmirrorP⟩ := typeAdd_preserves s obj.typeOf hwf
    have hget2 : s1x = typeAdd s (.ty obj.typeOf) none ∧
        idv = dictGet (typeAdd s (.ty obj.typeOf) none).type_registry (.ty obj.typeOf) := by
      have h4 := hget
      simp only [Except.ok.injEq, Prod.mk.injEq] at h4
      exact ⟨h4.1.symm, h4.2.symm⟩
    obtain ⟨rfl, rfl⟩ := hget2
    rw [hidP] at henc
    obtain ⟨⟨sA, tagB⟩, htag, henc⟩ := bind_eq_ok henc
    obtain ⟨ft, hft⟩ := serCore_fuel_succ htag
    rw [hft] at htag
    simp only [serCore] at htag
    have hPIok : ∃ tB2, packI nP = .ok tB2 := by
      cases hPI : packI nP with
      | error e => rw [hPI] at htag; cases htag
      | ok tB2 => exact ⟨tB2, rfl⟩
    obtain ⟨tB2, hPI⟩ := hPIok
    rw [hPI] at htag
    simp only [Except.map, Except.ok.injEq, Prod.mk.injEq] at htag
    obtain ⟨hA2, hB2⟩ := htag
    have htB : packI nP = .ok tagB := by rw [hPI, hB2]
    have hsA : sA = typeAdd s (.ty obj.typeOf) none := hA2.symm
    subst hsA
    rw [hk, bind_ok_eq] at henc
    obtain ⟨⟨s2x, payload⟩, hpay, henc⟩ := bind_eq_ok henc
    simp only [Except.ok.injEq, Prod.mk.injEq] at henc
    obtain ⟨h1, h2⟩ := henc
    subst h1
    subst h2
    obtain ⟨hwf2, hsub2, hcnt2, hdec⟩ :=
      hwk true fe (typeAdd s (.ty obj.typeOf) none) s2x payload hwf1 hsafe hpay
    refine ⟨hwf2, trSub_trans hsub1 hsub2, le_trans hcnt1 hcnt2, ?_⟩
    intro s3 hwf3 hsub3 fdec rest cls hfdec hcls
    have hlen4 : tagB.length = 4 := packI_length htB
    have hbyteslen : (tagB ++ payload).length = 4 + payload.length := by
      simp [hlen4]
    obtain ⟨g, rfl⟩ : ∃ g, fdec = g + 1 := ⟨fdec - 1, by omega⟩
    obtain ⟨g2, rfl⟩ : ∃ g2, g = g2 + 1 := ⟨g - 1, by omega⟩
    conv_lhs => rw [desCore]
    dsimp only
    rw [hint, bind_ok_eq]
    have htagdec : desCore defaultLoader true (g2 + 1) s3
        (.withKind .IntSerializer Option.none ((tagB ++ payload) ++ rest)) =
        .ok (.int nP, payload ++ rest) := by
      simp only [desCore]
      rw [List.append_assoc, unpackI_packI nP tagB (payload ++ rest) htB]
      rfl
    rw [htagdec]
    rw [bind_ok_eq]
    have hmir : dictGet s3.type_registry (.int nP) = some (.ty obj.typeOf) :=
      hsub3 _ _ (hsub2 _ _ hmirrorP)
    have hcont : dictContains s3.type_registry (.int nP) = true :=
      (dictContains_iff_get _ _).mpr (by rw [hmir]; rfl)
    show (if dictContains s3.type_registry (.int nP) = true then _ else _) = _
    rw [if_pos hcont, typeGet_of_entry s3 _ _ hmir, bind_ok_eq, hk, bind_ok_eq]
    exact hdec s3 hwf3 hsub3 (g2 + 1) rest (by omega)

/-- Codec-level round trip for booleans. -/
theorem wk_bool (b : Bool) : WK (.bool b) .BoolSerializer := by
  intro tg fenc s s2 payload hwf hsafe henc
  obtain ⟨fe, rfl⟩ := serCore_fuel_succ henc
  simp only [serCore, Except.ok.injEq, Prod.mk.injEq] at henc
  obtain ⟨h1, h2⟩ := henc
  subst h1
  subst h2
  refine ⟨hwf, trSub_refl s, le_refl _, ?_⟩
  intro s3 hwf3 hsub3 fdec rest hfdec
  obtain ⟨g, rfl⟩ : ∃ g, fdec = g + 1 := ⟨fdec - 1, by omega⟩
  simp only [desCore]
  cases b <;> simp [pyTruthy]

/-- Codec-level round trip for machine integers. -/
theorem wk_int (i : Int) : WK (.int i) .IntSerializer := by
  intro tg fenc s s2 payload hwf hsafe henc
  obtain ⟨fe, rfl⟩ := serCore_fuel_succ henc
  simp only [serCore] at henc
  obtain ⟨b, hb, henc⟩ := map_eq_ok henc
  have h4 : s = s2 ∧ b = payload := by
    have h5 := henc
    simp only [Prod.mk.injEq] at h5
    exact h5
  obtain ⟨h1, h2⟩ := h4
  subst h1
  subst h2
  refine ⟨hwf, trSub_refl s, le_refl _, ?_⟩
  intro s3 hwf3 hsub3 fdec rest hfdec
  obtain ⟨g, rfl⟩ : ∃ g, fdec = g + 1 := ⟨fdec - 1, by omega⟩
  simp only [desCore]
  rw [unpackI_packI i b rest hb]
  rfl

/-- Codec-level round trip for floats (genuine 64-bit patterns). -/
theorem wk_float (bits : Nat) : WK (.float bits) .FloatSerializer := by
  intro tg fenc s s2 payload hwf hsafe henc
  obtain ⟨fe, rfl⟩ := serCore_fuel_succ henc
  simp only [serCore, Except.ok.injEq, Prod.mk.injEq] at henc
  obtain ⟨h1, h2⟩ := henc
  subst h1
  subst h2
  have hlt : bits < 2 ^ 64 := by
    simp only [pySafe, Bool.and_eq_true, decide_eq_true_eq] at hsafe
    exact hsafe.1
  refine ⟨hwf, trSub_refl s, le_refl _, ?_⟩
  intro s3 hwf3 hsub3 fdec rest hfdec
  obtain ⟨g, rfl⟩ : ∃ g, fdec = g + 1 := ⟨fdec - 1, by omega⟩
  simp only [desCore]
  rw [unpackD_packD bits rest hlt]
  rfl

/-- Codec-level round trip for ASCII text. -/
theorem wk_str (t : String) : WK (.str t) .StringSerializer := by
  intro tg fenc s s2 payload hwf hsafe henc
  obtain ⟨fe, rfl⟩ := serCore_fuel_succ henc
  simp only [serCore] at henc
  obtain ⟨hb, hbEq, henc⟩ := map_eq_ok henc
  have h4 : s = s2 ∧ hb ++ utf8Encode t = payload := by
    have h5 := henc
    simp only [Prod.mk.injEq] at h5
    exact h5
  obtain ⟨h1, h2⟩ := h4
  subst h1
  subst h2
  have hall : ∀ c ∈ t.data, c.toNat < 128 := by
    simp only [pySafe, List.all_eq_true, decide_eq_true_eq] at hsafe
    exact hsafe
  have hENC : utf8Encode t = t.data.map (fun c => c.toNat) := utf8Encode_ascii t.data hall
  refine ⟨hwf, trSub_refl s, le_refl _, ?_⟩
  intro s3 hwf3 hsub3 fdec rest hfdec
  obtain ⟨g, rfl⟩ : ∃ g, fdec = g + 1 := ⟨fdec - 1, by omega⟩
  simp only [desCore]
  rw [List.append_assoc, unpackH_packH _ _ _ hbEq, bind_ok_eq]
  have hneg : ¬ ((t.length : Int) < 0) := by omega
  rw [if_neg hneg]
  have htn : ((t.length : Int)).toNat = t.length := Int.toNat_natCast t.length
  rw [htn, hENC]
  have hlen : t.length = (t.data.map (fun c => c.toNat)).length := by
    rw [List.length_map]
    rfl
  rw [hlen, List.take_left, List.drop_left]
  rw [show utf8Decode (t.data.map (fun c => c.toNat)) = some t.data from
    utf8DecodeF_ascii t.data hall _ (by simp)]

/-- Base case of the set-element deserializer loop. -/
theorem desCore_setElems_zero (L : Loader) (tg : Bool) (g : Nat) (s : DecState)
    (acc : List PyObj) (data : List Nat) :
    desCore L tg (g + 1) s (.setElems 0 acc data) = .ok (.set acc, data) := rfl

/-- Base case of the mapping-entry deserializer loop. -/
theorem desCore_mapElems_zero (L : Loader) (tg : Bool) (g : Nat) (s : DecState)
    (acc : List (PyObj × PyObj)) (data : List Nat) :
    desCore L tg (g + 1) s (.mapElems 0 acc data) = .ok (.dict acc, data) := rfl

/-- Base case of the array-element deserializer loop. -/
theorem desCore_arrElems_zero (L : Loader) (tg : Bool) (g : Nat) (s : DecState)
    (acc : List PyObj) (data : List Nat) :
    desCore L tg (g + 1) s (.arrElems 0 acc data) = .ok (.list acc, data) := rfl

/-- `typeGet` without autoregistration succeeds only on a present key,
returning the stored binding and the state unchanged. -/
theorem typeGet_false_ok {s sA : DecState} {k : RVal} {v : Option RVal}
    (h : typeGet s k false = .ok (sA, v)) :
    sA = s ∧ v = dictGet s.type_registry k ∧ dictContains s.type_registry k = true := by
  unfold typeGet Registry.get at h
  by_cases hc : (s.typeReg).contains k
  · rw [if_pos hc] at h
    simp only [Except.ok.injEq, Prod.mk.injEq] at h
    obtain ⟨h1, h2⟩ := h
    exact ⟨h1.symm, h2.symm, hc⟩
  · rw [if_neg hc] at h
    simp only [Bool.false_eq_true, if_false] at h
    cases h

/-- A value not in the list is not found by `List.contains`. -/
theorem contains_false_of_not_mem {α : Type} [DecidableEq α] {l : List α} {x : α}
    (h : x ∉ l) : l.contains x = false := by
  rw [Bool.eq_false_iff]
  intro hc
  exact h (List.mem_of_elem_eq_true hc)

/-- The round-trip property of the set-element loop: a successful
serialization of the elements from a well-formed state preserves
well-formedness and only extends the type table, and from any extension
of the resulting state the produced bytes fold the elements back onto
any accumulator that keeps the whole set duplicate-free. -/
def RTset (l : List PyObj) : Prop :=
  ∀ (tg : Bool) (fenc : Nat) (s s2 : DecState) (body : List Nat),
    WfTR s → pySafeList l = true →
    serCore defaultLoader tg fenc s (.setElems l) = .ok (s2, body) →
    WfTR s2 ∧ trSub s s2 ∧ s.typeCounter ≤ s2.typeCounter ∧
    ∀ (s3 : DecState), WfTR s3 → trSub s2 s3 →
    ∀ (fdec : Nat) (rest : List Nat) (acc : List PyObj),
      2 * body.length + 2 ≤ fdec →
      (acc ++ l).Nodup →
      desCore defaultLoader tg fdec s3 (.setElems l.length acc (body ++ rest)) =
        .ok (.set (acc ++ l), rest)

/-- The round-trip property of the mapping-entry loop, with an
accumulator that keeps the key set duplicate-free. -/
def RTmap (l : List (PyObj × PyObj)) : Prop :=
  ∀ (tg : Bool) (fenc : Nat) (s s2 : DecState) (body : List Nat),
    WfTR s → pySafePairs l = true →
    serCore defaultLoader tg fenc s (.mapElems l) = .ok (s2, body) →
    WfTR s2 ∧ trSub s s2 ∧ s.typeCounter ≤ s2.typeCounter ∧
    ∀ (s3 : DecState), WfTR s3 → trSub s2 s3 →
    ∀ (fdec : Nat) (rest : List Nat) (acc : List (PyObj × PyObj)),
      2 * body.length + 2 ≤ fdec →
      ((acc ++ l).map (fun p => p.1)).Nodup →
      desCore defaultLoader tg fdec s3 (.mapElems l.length acc (body ++ rest)) =
        .ok (.dict (acc ++ l), rest)

/-- The round-trip property of the array-element loop: encoding from
index `i` decodes back by placing the elements at consecutive positions
starting at `i` of any sufficiently long placeholder buffer. -/
def RTarr (l : List PyObj) : Prop :=
  ∀ (i : Nat) (tg : Bool) (fenc : Nat) (s s2 : DecState) (body : List Nat),
    WfTR s → pySafeList l = true →
    serCore defaultLoader tg fenc s (.arrElems l i) = .ok (s2, body) →
    WfTR s2 ∧ trSub s s2 ∧ s.typeCounter ≤ s2.typeCounter ∧
    ∀ (s3 : DecState), WfTR s3 → trSub s2 s3 →
    ∀ (fdec : Nat) (rest : List Nat) (acc : List PyObj),
      2 * body.length + 2 ≤ fdec →
      i + l.length ≤ acc.length →
      desCore defaultLoader tg fdec s3 (.arrElems l.length acc (body ++ rest)) =
        .ok (.list (listSetAll acc i l), rest)

/-- Round trip of the empty set-element loop. -/
theorem rtset_nil : RTset [] := by
  intro tg fenc s s2 body hwf hsafe henc
  obtain ⟨fe, rfl⟩ := serCore_fuel_succ henc
  simp only [serCore, Except.ok.injEq, Prod.mk.injEq] at henc
  obtain ⟨h1, h2⟩ := henc
  subst h1
  subst h2
  refine ⟨hwf, trSub_refl s, le_refl _, ?_⟩
  intro s3 hwf3 hsub3 fdec rest acc hfdec hnd
  obtain ⟨g, rfl⟩ : ∃ g, fdec = g + 1 := ⟨fdec - 1, by omega⟩
  simp only [List.length_nil, List.nil_append]
  rw [desCore_setElems_zero]
  simp

/-- Cons step of the set-element loop round trip: the element's type is
auto-registered, its id and the element's bytes are written, and
decoding reads them back, appending the element to the accumulator. -/
theorem rtset_cons (x : PyObj) (r : List PyObj) (hx : RT x) (hr : RTset r) :
    RTset (x :: r) := by
  intro tg fenc s s2 body hwf hsafe henc
  obtain ⟨fe, rfl⟩ := serCore_fuel_succ henc
  have hsafe2 : pySafe x = true ∧ pySafeList r = true := by
    simpa [pySafeList, Bool.and_eq_true] using hsafe
  obtain ⟨hxs, hrs⟩ := hsafe2
  simp only [serCore] at henc
  obtain ⟨⟨sA, idv⟩, hget, henc⟩ := bind_eq_ok henc
  rw [typeGet_auto_eq] at hget
  have hget2 : typeAdd s (.ty x.typeOf) none = sA ∧
      dictGet (typeAdd s (.ty x.typeOf) none).type_registry (.ty x.typeOf) = idv := by
    simpa [Except.ok.injEq, Prod.mk.injEq] using hget
  obtain ⟨h5, h6⟩ := hget2
  subst h5
  subst h6
  obtain ⟨hwf1, hsub1, hcnt1, n, hid, hmir⟩ := typeAdd_preserves s x.typeOf hwf
  rw [hid] at henc
  obtain ⟨idB, hidB, henc⟩ := bind_eq_ok henc
  have hidB2 : packH n = .ok idB := hidB
  obtain ⟨⟨sB, itemB⟩, hitem, henc⟩ := bind_eq_ok henc
  obtain ⟨hwf2, hsub2, hcnt2, hdecX⟩ := hx tg fe _ sB itemB hwf1 hxs hitem
  obtain ⟨⟨sC, restB⟩, hrest, henc⟩ := bind_eq_ok henc
  obtain ⟨hwf3s, hsub3s, hcnt3s, hdecR⟩ := hr tg fe sB sC restB hwf2 hrs hrest
  have henc2 : sC = s2 ∧ idB ++ itemB ++ restB = body := by
    simpa [Except.ok.injEq, Prod.mk.injEq] using henc
  obtain ⟨h7, h8⟩ := henc2
  subst h7
  subst h8
  refine ⟨hwf3s, trSub_trans hsub1 (trSub_trans hsub2 hsub3s),
    le_trans hcnt1 (le_trans hcnt2 hcnt3s), ?_⟩
  intro s3 hwf3 hsub3 fdec rest acc hfdec hnd
  have hlen2 : idB.length = 2 := packH_length hidB2
  have hlensum : (idB ++ itemB ++ restB).length = 2 + (itemB.length + restB.length) := by
    simp [hlen2]
  rw [hlensum] at hfdec
  obtain ⟨g, rfl⟩ : ∃ g, fdec = g + 1 := ⟨fdec - 1, by omega⟩
  simp only [List.length_cons, desCore]
  have hre : (idB ++ itemB ++ restB) ++ rest = idB ++ (itemB ++ (restB ++ rest)) := by
    simp [List.append_assoc]
  rw [hre, unpackH_packH n idB (itemB ++ (restB ++ rest)) hidB2, bind_ok_eq]
  have hmir3 : dictGet s3.type_registry (.int n) = some (.ty x.typeOf) :=
    hsub3 _ _ (hsub3s _ _ (hsub2 _ _ hmir))
  rw [typeGet_of_entry s3 _ _ hmir3, bind_ok_eq]
  have hdX := hdecX s3 hwf3 (trSub_trans hsub3s hsub3) g (restB ++ rest)
    (some (.ty x.typeOf)) (by omega) (Or.inr rfl)
  rw [hdX, bind_ok_eq]
  have hxa : x ∉ acc := by
    intro hmem
    exact (List.disjoint_of_nodup_append hnd) hmem (List.mem_cons_self x r)
  rw [show acc.contains x = false from contains_false_of_not_mem hxa]
  simp only [Bool.false_eq_true, if_false]
  have hfin := hdecR s3 hwf3 hsub3 g rest (acc ++ [x]) (by omega) (by simpa using hnd)
  rw [hfin]
  simp

/-- Round trip of the empty mapping-entry loop. -/
theorem rtmap_nil : RTmap [] := by
  intro tg fenc s s2 body hwf hsafe henc
  obtain ⟨fe, rfl⟩ := serCore_fuel_succ henc
  simp only [serCore, Except.ok.injEq, Prod.mk.injEq] at henc
  obtain ⟨h1, h2⟩ := henc
  subst h1
  subst h2
  refine ⟨hwf, trSub_refl s, le_refl _, ?_⟩
  intro s3 hwf3 hsub3 fdec rest acc hfdec hnd
  obtain ⟨g, rfl⟩ : ∃ g, fdec = g + 1 := ⟨fdec - 1, by omega⟩
  simp only [List.length_nil, List.nil_append]
  rw [desCore_mapElems_zero]
  simp

/-- Cons step of the mapping-entry loop round trip: key and value types
are auto-registered, ids and recursive bytes are written for both, and
decoding reads them back, inserting the pair into the accumulator. -/
theorem rtmap_cons (kv : PyObj × PyObj) (r : List (PyObj × PyObj))
    (hk : RT kv.1) (hv : RT kv.2) (hr : RTmap r) : RTmap (kv :: r) := by
  intro tg fenc s s2 body hwf hsafe henc
  obtain ⟨fe, rfl⟩ := serCore_fuel_succ henc
  have hsafe2 : (pySafe kv.1 = true ∧ pySafe kv.2 = true) ∧ pySafePairs r = true := by
    simpa [pySafePairs, Bool.and_eq_true] using hsafe
  obtain ⟨⟨hks, hvs⟩, hrs⟩ := hsafe2
  simp only [serCore] at henc
  obtain ⟨⟨sA, kid⟩, hget, henc⟩ := bind_eq_ok henc
  rw [typeGet_auto_eq] at hget
  have hget2 : typeAdd s (.ty kv.1.typeOf) none = sA ∧
      dictGet (typeAdd s (.ty kv.1.typeOf) none).type_registry (.ty kv.1.typeOf) = kid := by
    simpa [Except.ok.injEq, Prod.mk.injEq] using hget
  obtain ⟨h5, h6⟩ := hget2
  subst h5
  subst h6
  obtain ⟨hwf1, hsub1, hcnt1, nk, hidK, hmirK⟩ := typeAdd_preserves s kv.1.typeOf hwf
  rw [hidK] at henc
  obtain ⟨kidB, hkidB, henc⟩ := bind_eq_ok henc
  have hkidB2 : packH nk = .ok kidB := hkidB
  obtain ⟨⟨sB, keyB⟩, hkey, henc⟩ := bind_eq_ok henc
  obtain ⟨hwf2, hsub2, hcnt2, hdecK⟩ := hk tg fe _ sB keyB hwf1 hks hkey
  obtain ⟨⟨sBB, vid⟩, hgetv, henc⟩ := bind_eq_ok henc
  rw [typeGet_auto_eq] at hgetv
  have hgetv2 : typeAdd sB (.ty kv.2.typeOf) none = sBB ∧
      dictGet (typeAdd sB (.ty kv.2.typeOf) none).type_registry (.ty kv.2.typeOf) = vid := by
    simpa [Except.ok.injEq, Prod.mk.injEq] using hgetv
  obtain ⟨h7, h8⟩ := hgetv2
  subst h7
  subst h8
  obtain ⟨hwf3v, hsub3v, hcnt3v, nv, hidV, hmirV⟩ := typeAdd_preserves sB kv.2.typeOf hwf2
  rw [hidV] at henc
  obtain ⟨vidB, hvidB, henc⟩ := bind_eq_ok henc
  have hvidB2 : packH nv = .ok vidB := hvidB
  obtain ⟨⟨sD, valB⟩, hval, henc⟩ := bind_eq_ok henc
  obtain ⟨hwf4, hsub4, hcnt4, hdecV⟩ := hv tg fe _ sD valB hwf3v hvs hval
  obtain ⟨⟨sE, restB⟩, hrest, henc⟩ := bind_eq_ok henc
  obtain ⟨hwf5, hsub5, hcnt5, hdecR⟩ := hr tg fe sD sE restB hwf4 hrs hrest
  have henc2 : sE = s2 ∧ kidB ++ keyB ++ vidB ++ valB ++ restB = body := by
    simpa [Except.ok.injEq, Prod.mk.injEq] using henc
  obtain ⟨h9, h10⟩ := henc2
  subst h9
  subst h10
  refine ⟨hwf5,
    trSub_trans hsub1 (trSub_trans hsub2 (trSub_trans hsub3v (trSub_trans hsub4 hsub5))),
    le_trans hcnt1 (le_trans hcnt2 (le_trans hcnt3v (le_trans hcnt4 hcnt5))), ?_⟩
  intro s3 hwf3 hsub3 fdec rest acc hfdec hnd
  have hlk : kidB.length = 2 := packH_length hkidB2
  have hlv : vidB.length = 2 := packH_length hvidB2
  simp only [List.length_append, hlk, hlv] at hfdec
  obtain ⟨g, rfl⟩ : ∃ g, fdec = g + 1 := ⟨fdec - 1, by omega⟩
  simp only [List.length_cons, desCore]
  have hre : (kidB ++ keyB ++ vidB ++ valB ++ restB) ++ rest =
      kidB ++ (keyB ++ (vidB ++ (valB ++ (restB ++ rest)))) := by
    simp [List.append_assoc]
  rw [hre, unpackH_packH nk kidB _ hkidB2, bind_ok_eq]
  have hmirK3 : dictGet s3.type_registry (.int nk) = some (.ty kv.1.typeOf) :=
    hsub3 _ _ (hsub5 _ _ (hsub4 _ _ (hsub3v _ _ (hsub2 _ _ hmirK))))
  rw [typeGet_of_entry s3 _ _ hmirK3, bind_ok_eq]
  have hdK := hdecK s3 hwf3
    (trSub_trans hsub3v (trSub_trans hsub4 (trSub_trans hsub5 hsub3))) g
    (vidB ++ (valB ++ (restB ++ rest))) (some (.ty kv.1.typeOf)) (by omega) (Or.inr rfl)
  rw [hdK, bind_ok_eq]
  rw [unpackH_packH nv vidB _ hvidB2, bind_ok_eq]
  have hmirV3 : dictGet s3.type_registry (.int nv) = some (.ty kv.2.typeOf) :=
    hsub3 _ _ (hsub5 _ _ (hsub4 _ _ hmirV))
  rw [typeGet_of_entry s3 _ _ hmirV3, bind_ok_eq]
  have hdV := hdecV s3 hwf3 (trSub_trans hsub5 hsub3) g (restB ++ rest)
    (some (.ty kv.2.typeOf)) (by omega) (Or.inr rfl)
  rw [hdV, bind_ok_eq]
  have hndm : (acc.map (fun p => p.1) ++ (kv.1 :: r.map (fun p => p.1))).Nodup := by
    simpa using hnd
  have hk1 : kv.1 ∉ acc.map (fun p => p.1) := fun hmem =>
    (List.disjoint_of_nodup_append hndm) hmem (List.mem_cons_self _ _)
  rw [dictSet_of_not_contains acc kv.1 kv.2 ((dictContains_false_iff acc kv.1).mpr hk1)]
  have hfin := hdecR s3 hwf3 hsub3 g rest (acc ++ [(kv.1, kv.2)]) (by omega)
    (by simpa using hnd)
  rw [hfin]
  simp

/-- Round trip of the empty array-element loop. -/
theorem rtarr_nil : RTarr [] := by
  intro i tg fenc s s2 body hwf hsafe henc
  obtain ⟨fe, rfl⟩ := serCore_fuel_succ henc
  simp only [serCore, Except.ok.injEq, Prod.mk.injEq] at henc
  obtain ⟨h1, h2⟩ := henc
  subst h1
  subst h2
  refine ⟨hwf, trSub_refl s, le_refl _, ?_⟩
  intro s3 hwf3 hsub3 fdec rest acc hfdec hbound
  obtain ⟨g, rfl⟩ : ∃ g, fdec = g + 1 := ⟨fdec - 1, by omega⟩
  simp only [List.length_nil, List.nil_append]
  rw [desCore_arrElems_zero]
  rfl

/-- Cons step of the array-element loop round trip: the element's type
id is looked up (no auto-registration), the id, the element's index and
the element's bytes are written, and decoding places the element at that
index of the placeholder buffer. -/
theorem rtarr_cons (x : PyObj) (r : List PyObj) (hx : RT x) (hr : RTarr r) :
    RTarr (x :: r) := by
  intro i tg fenc s s2 body hwf hsafe henc
  obtain ⟨fe, rfl⟩ := serCore_fuel_succ henc
  have hsafe2 : pySafe x = true ∧ pySafeList r = true := by
    simpa [pySafeList, Bool.and_eq_true] using hsafe
  obtain ⟨hxs, hrs⟩ := hsafe2
  simp only [serCore] at henc
  obtain ⟨⟨sA, idv⟩, hget, henc⟩ := bind_eq_ok henc
  obtain ⟨h5, h6, hcont⟩ := typeGet_false_ok hget
  rw [h5] at henc
  cases hdg : dictGet s.type_registry (.ty x.typeOf) with
  | none =>
    exfalso
    have hsome := (dictContains_iff_get _ _).mp hcont
    rw [hdg] at hsome
    cases hsome
  | some w =>
    rw [hdg] at h6
    subst h6
    obtain ⟨nx, hwn, hmirX⟩ := hwf.tyVal (.ty x.typeOf, w) (dictGet_mem _ _ _ hdg) x.typeOf rfl
    have hwn2 : w = .int nx := hwn
    subst hwn2
    obtain ⟨idB, hidB, henc⟩ := bind_eq_ok henc
    have hidB2 : packH nx = .ok idB := hidB
    obtain ⟨idxB, hidxB, henc⟩ := bind_eq_ok henc
    have hidxB2 : packH (i : Int) = .ok idxB := hidxB
    obtain ⟨⟨sB, itemB⟩, hitem, henc⟩ := bind_eq_ok henc
    obtain ⟨hwf2, hsub2, hcnt2, hdecX⟩ := hx tg fe _ sB itemB hwf hxs hitem
    obtain ⟨⟨sC, restB⟩, hrest, henc⟩ := bind_eq_ok henc
    obtain ⟨hwf3s, hsub3s, hcnt3s, hdecR⟩ := hr (i + 1) tg fe sB sC restB hwf2 hrs hrest
    have henc2 : sC = s2 ∧ idB ++ idxB ++ itemB ++ restB = body := by
      simpa [Except.ok.injEq, Prod.mk.injEq] using henc
    obtain ⟨h7, h8⟩ := henc2
    subst h7
    subst h8
    refine ⟨hwf3s, trSub_trans hsub2 hsub3s, le_trans hcnt2 hcnt3s, ?_⟩
    intro s3 hwf3 hsub3 fdec rest acc hfdec hbound
    simp only [List.length_cons] at hbound
    have hlk : idB.length = 2 := packH_length hidB2
    have hlx : idxB.length = 2 := packH_length hidxB2
    simp only [List.length_append, hlk, hlx] at hfdec
    obtain ⟨g, rfl⟩ : ∃ g, fdec = g + 1 := ⟨fdec - 1, by omega⟩
    simp only [List.length_cons, desCore]
    have hre : (idB ++ idxB ++ itemB ++ restB) ++ rest =
        idB ++ (idxB ++ (itemB ++ (restB ++ rest))) := by
      simp [List.append_assoc]
    rw [hre, unpackH_packH nx idB _ hidB2, bind_ok_eq]
    rw [unpackH_packH (i : Int) idxB _ hidxB2, bind_ok_eq]
    have hmir3 : dictGet s3.type_registry (.int nx) = some (.ty x.typeOf) :=
      hsub3 _ _ (hsub3s _ _ (hsub2 _ _ hmirX))
    rw [typeGet_of_entry s3 _ _ hmir3, bind_ok_eq]
    have hdX := hdecX s3 hwf3 (trSub_trans hsub3s hsub3) g (restB ++ rest)
      (some (.ty x.typeOf)) (by omega) (Or.inr rfl)
    rw [hdX, bind_ok_eq]
    have hni : ¬ ((i : Int) < 0) := by omega
    simp only [if_neg hni]
    rw [Int.toNat_natCast i]
    rw [if_pos ⟨by omega, by omega⟩]
    have hfin := hdecR s3 hwf3 hsub3 g rest (acc.set i x) (by omega)
      (by rw [List.length_set]; omega)
    rw [hfin]
    rfl

/-- Codec-level round trip for sets, given the loop round trip. -/
theorem wk_set (l : List PyObj) (hl : RTset l) : WK (.set l) .SetSerializer := by
  intro tg fenc s s2 payload hwf hsafe henc
  obtain ⟨fe, rfl⟩ := serCore_fuel_succ henc
  simp only [serCore] at henc
  obtain ⟨cnt, hcnt, henc⟩ := bind_eq_ok henc
  have hcnt2 : packH (l.length : Int) = .ok cnt := hcnt
  obtain ⟨⟨sB, body⟩, hbody, henc⟩ := bind_eq_ok henc
  have henc2 : sB = s2 ∧ cnt ++ body = payload := by
    simpa [Except.ok.injEq, Prod.mk.injEq] using henc
  obtain ⟨h1, h2⟩ := henc2
  subst h1
  subst h2
  have hsafe2 : l.Nodup ∧ pySafeList l = true := by
    simpa [pySafe, Bool.and_eq_true, decide_eq_true_eq] using hsafe
  obtain ⟨hnd, hsl⟩ := hsafe2
  obtain ⟨hwf2, hsub2, hcnt2b, hdec⟩ := hl tg fe s sB body hwf hsl hbody
  refine ⟨hwf2, hsub2, hcnt2b, ?_⟩
  intro s3 hwf3 hsub3 fdec rest hfdec
  have hclen : cnt.length = 2 := packH_length hcnt2
  simp only [List.length_append, hclen] at hfdec
  obtain ⟨g, rfl⟩ : ∃ g, fdec = g + 1 := ⟨fdec - 1, by omega⟩
  simp only [desCore]
  rw [List.append_assoc, unpackH_packH _ _ _ hcnt2, bind_ok_eq]
  rw [Int.toNat_natCast l.length]
  have hfin := hdec s3 hwf3 hsub3 g rest [] (by omega) (by simpa using hnd)
  simpa using hfin

/-- Codec-level round trip for mappings, given the loop round trip. -/
theorem wk_map (l : List (PyObj × PyObj)) (hl : RTmap l) :
    WK (.dict l) .MappingSerializer := by
  intro tg fenc s s2 payload hwf hsafe henc
  obtain ⟨fe, rfl⟩ := serCore_fuel_succ henc
  simp only [serCore] at henc
  obtain ⟨cnt, hcnt, henc⟩ := bind_eq_ok henc
  have hcnt2 : packH (l.length : Int) = .ok cnt := hcnt
  obtain ⟨⟨sB, body⟩, hbody, henc⟩ := bind_eq_ok henc
  have henc2 : sB = s2 ∧ cnt ++ body = payload := by
    simpa [Except.ok.injEq, Prod.mk.injEq] using henc
  obtain ⟨h1, h2⟩ := henc2
  subst h1
  subst h2
  have hsafe2 : (l.map (fun p => p.1)).Nodup ∧ pySafePairs l = true := by
    simpa [pySafe, Bool.and_eq_true, decide_eq_true_eq] using hsafe
  obtain ⟨hnd, hsl⟩ := hsafe2
  obtain ⟨hwf2, hsub2, hcnt2b, hdec⟩ := hl tg fe s sB body hwf hsl hbody
  refine ⟨hwf2, hsub2, hcnt2b, ?_⟩
  intro s3 hwf3 hsub3 fdec rest hfdec
  have hclen : cnt.length = 2 := packH_length hcnt2
  simp only [List.length_append, hclen] at hfdec
  obtain ⟨g, rfl⟩ : ∃ g, fdec = g + 1 := ⟨fdec - 1, by omega⟩
  simp only [desCore]
  rw [List.append_assoc, unpackH_packH _ _ _ hcnt2, bind_ok_eq]
  rw [Int.toNat_natCast l.length]
  have hfin := hdec s3 hwf3 hsub3 g rest [] (by omega) (by simpa using hnd)
  simpa using hfin

/-- Codec-level round trip for lists, given the loop round trip. -/
theorem wk_list (l : List PyObj) (hl : RTarr l) : WK (.list l) .ArraySerializer := by
  intro tg fenc s s2 payload hwf hsafe henc
  obtain ⟨fe, rfl⟩ := serCore_fuel_succ henc
  simp only [serCore] at henc
  obtain ⟨cnt, hcnt, henc⟩ := bind_eq_ok henc
  have hcnt2 : packH (l.length : Int) = .ok cnt := hcnt
  obtain ⟨⟨sB, body⟩, hbody, henc⟩ := bind_eq_ok henc
  have henc2 : sB = s2 ∧ cnt ++ body = payload := by
    simpa [Except.ok.injEq, Prod.mk.injEq] using henc
  obtain ⟨h1, h2⟩ := henc2
  subst h1
  subst h2
  have hsl : pySafeList l = true := hsafe
  obtain ⟨hwf2, hsub2, hcnt2b, hdec⟩ := hl 0 tg fe s sB body hwf hsl hbody
  refine ⟨hwf2, hsub2, hcnt2b, ?_⟩
  intro s3 hwf3 hsub3 fdec rest hfdec
  have hclen : cnt.length = 2 := packH_length hcnt2
  simp only [List.length_append, hclen] at hfdec
  obtain ⟨g, rfl⟩ : ∃ g, fdec = g + 1 := ⟨fdec - 1, by omega⟩
  simp only [desCore]
  rw [List.append_assoc, unpackH_packH _ _ _ hcnt2, bind_ok_eq]
  rw [Int.toNat_natCast l.length]
  have hfin := hdec s3 hwf3 hsub3 g rest
    ((List.range l.length).map (fun i => PyObj.int (Int.ofNat i))) (by omega)
    (by simp only [List.length_map, List.length_range]; omega)
  rw [hfin, bind_ok_eq]
  have hsa : listSetAll ((List.range l.length).map (fun i => PyObj.int (Int.ofNat i))) 0 l = l := by
    have h2 := listSetAll_spec l [] ((List.range l.length).map (fun i => PyObj.int (Int.ofNat i)))
      (by simp only [List.length_map, List.length_range])
    simpa using h2
  rw [hsa]
  simp [PyObj.typeOf]

/-- Codec-level round trip for tuples, given the loop round trip. -/
theorem wk_tuple (l : List PyObj) (hl : RTarr l) : WK (.tuple l) .ArraySerializer := by
  intro tg fenc s s2 payload hwf hsafe henc
  obtain ⟨fe, rfl⟩ := serCore_fuel_succ henc
  simp only [serCore] at henc
  obtain ⟨cnt, hcnt, henc⟩ := bind_eq_ok henc
  have hcnt2 : packH (l.length : Int) = .ok cnt := hcnt
  obtain ⟨⟨sB, body⟩, hbody, henc⟩ := bind_eq_ok henc
  have henc2 : sB = s2 ∧ cnt ++ body = payload := by
    simpa [Except.ok.injEq, Prod.mk.injEq] using henc
  obtain ⟨h1, h2⟩ := henc2
  subst h1
  subst h2
  have hsl : pySafeList l = true := hsafe
  obtain ⟨hwf2, hsub2, hcnt2b, hdec⟩ := hl 0 tg fe s sB body hwf hsl hbody
  refine ⟨hwf2, hsub2, hcnt2b, ?_⟩
  intro s3 hwf3 hsub3 fdec rest hfdec
  have hclen : cnt.length = 2 := packH_length hcnt2
  simp only [List.length_append, hclen] at hfdec
  obtain ⟨g, rfl⟩ : ∃ g, fdec = g + 1 := ⟨fdec - 1, by omega⟩
  simp only [desCore]
  rw [List.append_assoc, unpackH_packH _ _ _ hcnt2, bind_ok_eq]
  rw [Int.toNat_natCast l.length]
  have hfin := hdec s3 hwf3 hsub3 g rest
    ((List.range l.length).map (fun i => PyObj.int (Int.ofNat i))) (by omega)
    (by simp only [List.length_map, List.length_range]; omega)
  rw [hfin, bind_ok_eq]
  have hsa : listSetAll ((List.range l.length).map (fun i => PyObj.int (Int.ofNat i))) 0 l = l := by
    have h2 := listSetAll_spec l [] ((List.range l.length).map (fun i => PyObj.int (Int.ofNat i)))
      (by simp only [List.length_map, List.length_range])
    simpa using h2
  rw [hsa]
  simp [PyObj.typeOf]

mutual

/-- Every value round-trips through the loader dispatch (structural
induction over the nested value type). -/
def rtObj : (o : PyObj) → RT o
  | .bool b => rt_of_withKind _ _ rfl (wk_bool b)
  | .int i => rt_of_withKind _ _ rfl (wk_int i)
  | .float bits => rt_of_withKind _ _ rfl (wk_float bits)
  | .str t => rt_of_withKind _ _ rfl (wk_str t)
  | .set l => rt_of_withKind _ _ rfl (wk_set l (rtSetL l))
  | .dict l => rt_of_withKind _ _ rfl (wk_map l (rtMapL l))
  | .list l => rt_of_withKind _ _ rfl (wk_list l (rtArrL l))
  | .tuple l => rt_of_withKind _ _ rfl (wk_tuple l (rtArrL l))

/-- Every element list round-trips through the set-element loop. -/
def rtSetL : (l : List PyObj) → RTset l
  | [] => rtset_nil
  | x :: r => rtset_cons x r (rtObj x) (rtSetL r)

/-- Every entry list round-trips through the mapping-entry loop. -/
def rtMapL : (l : List (PyObj × PyObj)) → RTmap l
  | [] => rtmap_nil
  | kv :: r => rtmap_cons kv r (rtObj kv.1) (rtObj kv.2) (rtMapL r)

/-- Every element list round-trips through the array-element loop. -/
def rtArrL : (l : List PyObj) → RTarr l
  | [] => rtarr_nil
  | x :: r => rtarr_cons x r (rtObj x) (rtArrL r)

end

/-- Every value's concrete type is bound to a codec of the default set,
and that codec round-trips the value. -/
theorem wk_any : ∀ (o : PyObj), ∃ k,
    defaultLoader.get_serializer (some (.ty o.typeOf)) = .ok k ∧ WK o k := by
  intro o
  cases o with
  | bool b => exact ⟨_, rfl, wk_bool b⟩
  | int i => exact ⟨_, rfl, wk_int i⟩
  | float bits => exact ⟨_, rfl, wk_float bits⟩
  | str t => exact ⟨_, rfl, wk_str t⟩
  | set l => exact ⟨_, rfl, wk_set l (rtSetL l)⟩
  | dict l => exact ⟨_, rfl, wk_map l (rtMapL l)⟩
  | list l => exact ⟨_, rfl, wk_list l (rtArrL l)⟩
  | tuple l => exact ⟨_, rfl, wk_tuple l (rtArrL l)⟩

/-- C2 (amended): for every value `obj` (its concrete type is always
bound to a codec of the default set) that is safe — genuine non-NaN
64-bit floats, ASCII text, duplicate-free sets and dict key sets — and
whose tagged serialization from a well-formed registry state succeeds,
`Loader.serialize(obj, tagging=True)` auto-registers the value's type in
the global type table (the tagged type lookup itself never fails for an
absent type: it autoregisters), prepends the integer-encoded type id to
the payload, and `Loader.deserialize` of the bytes with `tagging=True`
and no target type returns a value equal to `obj` with the same runtime
type, consuming exactly the produced bytes. -/
theorem tagged_roundtrip (obj : PyObj) (s s2 : DecState) (bytes : List Nat)
    (hwf : WfTR s) (hsafe : pySafe obj = true)
    (henc : defaultLoader.serialize s obj true = .ok (s2, bytes)) :
    (∃ v, typeGet s (.ty obj.typeOf) true = .ok v) ∧
    (∃ n tagB payload, packI n = .ok tagB ∧ bytes = tagB ++ payload ∧
      dictGet s2.type_registry (.ty obj.typeOf) = some (.int n) ∧
      dictGet s2.type_registry (.int n) = some (.ty obj.typeOf)) ∧
    ∀ rest, ∃ obj2,
      defaultLoader.deserialize s2 (bytes ++ rest) Option.none true = .ok (obj2, rest) ∧
      obj2 = obj ∧ obj2.typeOf = obj.typeOf := by
  have henc' : serCore defaultLoader true (3 * PyObj.nodes obj + 8) s (.obj obj) =
      .ok (s2, bytes) := henc
  obtain ⟨hwf2, hsub2, hcnt2, hdec⟩ := rtObj obj true _ s s2 bytes hwf hsafe henc'
  refine ⟨⟨_, typeGet_auto_eq s _⟩, ?_, ?_⟩
  · obtain ⟨k, hk, hwk⟩ := wk_any obj
    have hencL := henc'
    obtain ⟨fe, hfe⟩ := serCore_fuel_succ hencL
    rw [hfe] at hencL
    simp only [serCore] at hencL
    obtain ⟨intSer, hint, hencL⟩ := bind_eq_ok hencL
    have hIS : intSer = SerKind.IntSerializer := by
      injection hint with h
      exact h.symm
    subst hIS
    obtain ⟨⟨s1x, idv⟩, hget, hencL⟩ := bind_eq_ok hencL
    rw [typeGet_auto_eq s (.ty obj.typeOf)] at hget
    obtain ⟨hwf1, hsub1, hcnt1, nP, hidP, hmirrorP⟩ := typeAdd_preserves s obj.typeOf hwf
    have hget2 : s1x = typeAdd s (.ty obj.typeOf) none ∧
        idv = dictGet (typeAdd s (.ty obj.typeOf) none).type_registry (.ty obj.typeOf) := by
      have h4 := hget
      simp only [Except.ok.injEq, Prod.mk.injEq] at h4
      exact ⟨h4.1.symm, h4.2.symm⟩
    obtain ⟨rfl, rfl⟩ := hget2
    rw [hidP] at hencL
    obtain ⟨⟨sA, tagB⟩, htag, hencL⟩ := bind_eq_ok hencL
    obtain ⟨ft, hft⟩ := serCore_fuel_succ htag
    rw [hft] at htag
    simp only [serCore] at htag
    have hPIok : ∃ tB2, packI nP = .ok tB2 := by
      cases hPI : packI nP with
      | error e => rw [hPI] at htag; cases htag
      | ok tB2 => exact ⟨tB2, rfl⟩
    obtain ⟨tB2, hPI⟩ := hPIok
    rw [hPI] at htag
    simp only [Except.map, Except.ok.injEq, Prod.mk.injEq] at htag
    obtain ⟨hA2, hB2⟩ := htag
    have htB : packI nP = .ok tagB := by rw [hPI, hB2]
    have hsA : sA = typeAdd s (.ty obj.typeOf) none := hA2.symm
    subst hsA
    rw [hk, bind_ok_eq] at hencL
    obtain ⟨⟨s2x, payload⟩, hpay, hencL⟩ := bind_eq_ok hencL
    have hencL2 : s2x = s2 ∧ tagB ++ payload = bytes := by
      simpa [Except.ok.injEq, Prod.mk.injEq] using hencL
    obtain ⟨h7, h8⟩ := hencL2
    obtain ⟨hwfW, hsubW, hcntW, hdecW⟩ :=
      hwk true fe (typeAdd s (.ty obj.typeOf) none) s2x payload hwf1 hsafe hpay
    refine ⟨nP, tagB, payload, htB, h8.symm, ?_, ?_⟩
    · rw [← h7]
      exact hsubW _ _ hidP
    · rw [← h7]
      exact hsubW _ _ hmirrorP
  · intro rest
    refine ⟨obj, ?_, rfl, rfl⟩
    show desCore defaultLoader true (2 * (bytes ++ rest).length + 8) s2
      (.obj (bytes ++ rest) Option.none) = .ok (obj, rest)
    exact hdec s2 hwf2 (trSub_refl s2) _ rest Option.none
      (by simp only [List.length_append]; omega) (Or.inl rfl)

/-- C2, unrestricted, is false: a Python int outside the 32-bit range
makes `struct.pack` raise inside the int codec during tagged
serialization, and a non-ASCII one-character text serializes (the string
codec writes the character count) but fails to deserialize (the decoder
slices that many bytes, truncating the UTF-8 sequence). -/
theorem tagged_roundtrip_counterexample :
    defaultLoader.serialize ⟨[], 0, 0, [], [], []⟩ (.int (2 ^ 31)) true =
      .error .structError ∧
    ∃ s2, defaultLoader.serialize ⟨[], 0, 0, [], [], []⟩ (.str "é") true =
        .ok (s2, [1, 0, 0, 0, 1, 0, 195, 169]) ∧
      defaultLoader.deserialize s2 [1, 0, 0, 0, 1, 0, 195, 169] Option.none true =
        .error .typeError := by
  exact ⟨rfl, ⟨[(.ty .str, .int 1), (.int 1, .ty .str)], 1, 0, [], [], []⟩, rfl, rfl⟩

/-- Witness: the amended tagged round trip at the integer 5 from the
empty registry state. -/
theorem tagged_roundtrip_witness :
    (∃ v, typeGet ⟨[], 0, 0, [], [], []⟩ (.ty (PyObj.int 5).typeOf) true = .ok v) ∧
    (∃ n tagB payload, packI n = .ok tagB ∧
      ([1, 0, 0, 0, 5, 0, 0, 0] : List Nat) = tagB ++ payload ∧
      dictGet (DecState.type_registry
          ⟨[(.ty .int, .int 1), (.int 1, .ty .int)], 1, 0, [], [], []⟩)
        (.ty (PyObj.int 5).typeOf) = some (.int n) ∧
      dictGet (DecState.type_registry
          ⟨[(.ty .int, .int 1), (.int 1, .ty .int)], 1, 0, [], [], []⟩)
        (.int n) = some (.ty (PyObj.int 5).typeOf)) ∧
    ∀ rest, ∃ obj2,
      defaultLoader.deserialize ⟨[(.ty .int, .int 1), (.int 1, .ty .int)], 1, 0, [], [], []⟩
        ([1, 0, 0, 0, 5, 0, 0, 0] ++ rest) Option.none true = .ok (obj2, rest) ∧
      obj2 = PyObj.int 5 ∧ obj2.typeOf = (PyObj.int 5).typeOf :=
  tagged_roundtrip (.int 5) ⟨[], 0, 0, [], [], []⟩
    ⟨[(.ty .int, .int 1), (.int 1, .ty .int)], 1, 0, [], [], []⟩ [1, 0, 0, 0, 5, 0, 0, 0]
    ⟨by simp, by simp, by simp, by simp⟩ rfl rfl

/-! ### C6: `refresh` preserves the registered classes and their tables -/

/-- The class keys of a registry's entry list, in insertion order (the
`isinstance(cls, type)` filter of `refresh`). -/
def tyKeys (l : List (RVal × RVal)) : List PyType :=
  l.filterMap (fun p => match p.1 with | .ty c => some c | _ => Option.none)

/-- The field and alias tables of a registered class, read back through
`class_registry` and the `ClassDefinition` heap. -/
def classTables (s : DecState) (c : PyType) :
    Option (List (RVal × RVal) × List (RVal × RVal)) :=
  match dictGet s.class_registry (.ty c) with
  | some (.cdef r) => (s.heap.get? r).map (fun cd => (cd.fields, cd.aliases))
  | _ => Option.none

/-- The effect of one `aliases.add(name, value)` on the alias entry list:
insert-only, storing both directions. -/
def aliasStep (cur : List (RVal × RVal)) (p : RVal × RVal) : List (RVal × RVal) :=
  if dictContains cur p.1 then cur else dictSet (dictSet cur p.1 p.2) p.2 p.1

/-- Replaying the stored alias items through `add` (the re-registration
path of `refresh`). -/
def aliasReplay (cur : List (RVal × RVal)) (l : List (RVal × RVal)) : List (RVal × RVal) :=
  l.foldl aliasStep cur

/-- Parse a class registry entry list as the add-blocks produced by
`register_class` — per class a forward binding to a live
`ClassDefinition` followed by its mirror — collecting each class's
snapshot. -/
def blocksSpec (s : DecState) :
    List (RVal × RVal) → Option (List (PyType × List (RVal × RVal) × List (RVal × RVal)))
  | [] => some []
  | (RVal.ty c, RVal.cdef r) :: (RVal.cdef r2, RVal.ty c2) :: rest =>
    if r2 = r ∧ c2 = c then
      match s.heap.get? r with
      | some cd => (blocksSpec s rest).map (fun out => (c, cd.fields, cd.aliases) :: out)
      | Option.none => Option.none
    else Option.none
  | _ => Option.none

/-- A registered class's tables as `refresh` can rebuild them exactly:
if the field table is empty the class `__dict__` holds no leftover
`Field` markers (registration unwrapped them), field values are types,
every field name already has an alias, field names are unique, and the
alias table replays through `add` unchanged. -/
def classSafeB (dict : List (String × Attr)) (fl al : List (RVal × RVal)) : Bool :=
  (!fl.isEmpty || dict.all (fun p => match p.2 with | .plain _ => true | _ => false)) &&
  fl.all (fun p => match p.2 with | .ty _ => true | _ => false) &&
  fl.all (fun p => dictContains al p.1) &&
  decide ((fl.map (fun p => p.1)).Nodup) &&
  decide (aliasReplay [] al = al)

/-- The whole-state precondition of the `refresh` preservation claim:
the class registry is a list of add-blocks over live `ClassDefinition`s,
class keys are distinct, and every class's tables are rebuildable. -/
def refreshSafe (s : DecState) : Bool :=
  match blocksSpec s s.class_registry with
  | some out =>
    decide ((out.map (fun e => e.1)).Nodup) &&
    out.all (fun e => classSafeB ((dictGet s.objDicts e.1).getD []) e.2.1 e.2.2)
  | Option.none => false

/-- Setting the appended element of a list. -/
theorem set_append_len {α : Type u} (l : List α) (x y : α) :
    (l ++ [x]).set l.length y = l ++ [y] := by
  induction l with
  | nil => rfl
  | cons a r ih => simp [List.set, ih]

/-- Reading the appended element of a list. -/
theorem get?_append_len {α : Type u} (l : List α) (x : α) :
    (l ++ [x]).get? l.length = some x := by
  induction l with
  | nil => rfl
  | cons a r ih => simpa using ih

/-- Reading below an appended tail. -/
theorem get?_append_lt {α : Type u} (l l2 : List α) (n : Nat) (h : n < l.length) :
    (l ++ l2).get? n = l.get? n := by
  induction l generalizing n with
  | nil => simp at h
  | cons a r ih =>
    cases n with
    | zero => rfl
    | succ m =>
      simp only [List.cons_append, List.get?_cons_succ]
      exact ih m (by simpa using h)

/-- `dictContains` distributes over append. -/
theorem dictContains_append [DecidableEq α] (l l2 : List (α × β)) (k : α) :
    dictContains (l ++ l2) k = (dictContains l k || dictContains l2 k) := by
  simp [dictContains, List.any_append]

/-- `tyKeys` distributes over append. -/
theorem tyKeys_append (l l2 : List (RVal × RVal)) :
    tyKeys (l ++ l2) = tyKeys l ++ tyKeys l2 := by
  simp [tyKeys]

/-- `typeAdd` never touches the class registry. -/
theorem typeAdd_class_registry (s : DecState) (k : RVal) (v : Option RVal) :
    (typeAdd s k v).class_registry = s.class_registry := by
  unfold typeAdd Registry.add
  by_cases h : (s.typeReg).contains k
  · simp [if_pos h]
  · simp only [if_neg h]
    cases v <;> simp [typeIdGen, Registry.set, DecState.typeReg]

/-- `typeAdd` never touches the class dicts. -/
theorem typeAdd_objDicts (s : DecState) (k : RVal) (v : Option RVal) :
    (typeAdd s k v).objDicts = s.objDicts := by
  unfold typeAdd Registry.add
  by_cases h : (s.typeReg).contains k
  · simp [if_pos h]
  · simp only [if_neg h]
    cases v <;> simp [typeIdGen, Registry.set, DecState.typeReg]

/-- `class_registry.add(cls)` on a fresh class: allocate a fresh empty
`ClassDefinition` on the heap and append the forward binding and its
mirror. -/
theorem classAdd_fresh (s : DecState) (cls : PyType)
    (h1 : dictContains s.class_registry (.ty cls) = false)
    (h2 : dictContains s.class_registry (.cdef s.heap.length) = false) :
    classAdd s (.ty cls) =
      { s with
        class_registry := s.class_registry ++
          [(.ty cls, .cdef s.heap.length), (.cdef s.heap.length, .ty cls)],
        heap := s.heap ++ [⟨.ty cls, [], []⟩] } := by
  unfold classAdd Registry.add Registry.set Registry.contains DecState.classReg
  dsimp only
  simp only [h1, Bool.false_eq_true, if_false]
  dsimp only [classDefGen]
  rw [dictSet_of_not_contains _ _ _ h1]
  rw [dictGet_append_right _ _ _ h1]
  rw [dictGet_cons, if_pos rfl]
  simp only [Option.getD_some]
  have h3 : dictContains (s.class_registry ++ [((RVal.ty cls), RVal.cdef s.heap.length)])
      (RVal.cdef s.heap.length) = false := by
    rw [dictContains_append, h2]
    simp [dictContains]
  rw [dictSet_of_not_contains _ _ _ h3, List.append_assoc]
  rfl

/-- The per-field loop of `register_class`, run over a class whose
`ClassDefinition` is the last heap cell: every field name already has an
alias, so the loop only appends the (uniquely named, type-valued) fields
to the class's field table, auto-registering each value type. -/
theorem fieldFold (cls : PyType) (al : List (RVal × RVal)) :
    ∀ (fl : List (RVal × RVal)) (s : DecState) (pre : List ClassDef)
      (flDone : List (RVal × RVal)),
      dictGet s.class_registry (.ty cls) = some (.cdef pre.length) →
      s.heap = pre ++ [⟨.ty cls, flDone, []⟩] →
      (∀ p ∈ fl, ∃ t, p.2 = RVal.ty t) →
      (∀ p ∈ fl, dictContains al p.1 = true) →
      (∀ p ∈ fl, dictContains flDone p.1 = false) →
      (fl.map (fun p => p.1)).Nodup →
      ∃ s2, fl.foldlM (fun (acc : DecState × List (RVal × RVal)) p => do
          let (s, al) := acc
          let (s, al) :=
            if dictContains al p.1 then (s, al)
            else
              let s2 := { s with nameCounter := s.nameCounter + 1 }
              (s2, dictSet al p.1 (.int (s2.nameCounter : Int)))
          let s ← register_field s cls p.1 (match p.2 with | .ty t => t | v => rvalRuntimeType v)
          .ok (s, al)) (s, al) = .ok (s2, al) ∧
        s2.class_registry = s.class_registry ∧
        s2.heap = pre ++ [⟨.ty cls, flDone ++ fl, []⟩] ∧
        s2.objDicts = s.objDicts := by
  intro fl
  induction fl with
  | nil =>
    intro s pre flDone hlook hheap hty hal hfresh hnd
    refine ⟨s, ?_, rfl, ?_, rfl⟩
    · rw [List.foldlM_nil]
      rfl
    · rw [hheap]
      simp
  | cons p rest ih =>
    intro s pre flDone hlook hheap hty hal hfresh hnd
    obtain ⟨t, hp2⟩ := hty p (List.mem_cons_self p rest)
    have hcont : dictContains al p.1 = true := hal p (List.mem_cons_self p rest)
    have hrf : register_field s cls p.1 t =
        .ok (typeAdd { s with heap := pre ++ [⟨.ty cls, flDone ++ [p], []⟩] } (.ty t) none) := by
      unfold register_field
      rw [classGet_of_entry s _ _ hlook, bind_ok_eq]
      have hd : derefClassDef s (some (.cdef pre.length)) =
          .ok (pre.length, ⟨.ty cls, flDone, []⟩) := by
        unfold derefClassDef
        dsimp only
        rw [hheap, get?_append_len]
      dsimp only
      rw [hd, bind_ok_eq]
      dsimp only
      rw [hheap, set_append_len]
      rw [dictSet_of_not_contains _ _ _ (hfresh p (List.mem_cons_self p rest))]
      rw [← hp2]
    have hndr : (rest.map (fun p => p.1)).Nodup := by
      simpa using hnd.of_cons
    have hp1r : p.1 ∉ rest.map (fun p => p.1) := by
      have h5 := hnd
      rw [List.map_cons, List.nodup_cons] at h5
      exact h5.1
    obtain ⟨s2, hfold, hcr, hh, hod⟩ := ih
      (typeAdd { s with heap := pre ++ [⟨.ty cls, flDone ++ [p], []⟩] } (.ty t) none)
      pre (flDone ++ [p])
      (by rw [typeAdd_class_registry]; exact hlook)
      (by rw [typeAdd_heap])
      (fun q hq => hty q (List.mem_cons_of_mem p hq))
      (fun q hq => hal q (List.mem_cons_of_mem p hq))
      (by
        intro q hq
        rw [dictContains_append, hfresh q (List.mem_cons_of_mem p hq)]
        have hne : ¬ (p.1 = q.1) := by
          intro hh
          exact hp1r (hh ▸ List.mem_map_of_mem (fun p => p.1) hq)
        simp [dictContains, hne])
      hndr
    refine ⟨s2, ?_, ?_, ?_, ?_⟩
    · rw [List.foldlM_cons]
      dsimp only
      rw [if_pos hcont]
      dsimp only
      rw [hp2]
      dsimp only
      rw [hrf, bind_ok_eq]
      exact hfold
    · rw [hcr, typeAdd_class_registry]
    · rw [hh]
      simp
    · rw [hod, typeAdd_objDicts]
/-- The alias loop of `register_class`, run over a class whose
`ClassDefinition` is the last heap cell: each item passes through
`aliases.add` (a `None` value routed through the generator), so the
alias table evolves by `aliasStep` and nothing else changes. -/
theorem aliasFold (cls : PyType) :
    ∀ (al2 : List (RVal × RVal)) (s : DecState) (pre : List ClassDef)
      (fl cur : List (RVal × RVal)),
      dictGet s.class_registry (.ty cls) = some (.cdef pre.length) →
      s.heap = pre ++ [⟨.ty cls, fl, cur⟩] →
      ∃ s2, al2.foldlM (fun s2 p =>
          register_alias s2 cls p.1 (if p.2 = RVal.none then Option.none else some p.2)) s =
            .ok s2 ∧
        s2.class_registry = s.class_registry ∧
        s2.heap = pre ++ [⟨.ty cls, fl, aliasReplay cur al2⟩] ∧
        s2.objDicts = s.objDicts := by
  intro al2
  induction al2 with
  | nil =>
    intro s pre fl cur hlook hheap
    refine ⟨s, ?_, rfl, ?_, rfl⟩
    · rw [List.foldlM_nil]
      rfl
    · rw [hheap]
      rfl
  | cons p rest ih =>
    intro s pre fl cur hlook hheap
    have hra : register_alias s cls p.1 (if p.2 = RVal.none then Option.none else some p.2) =
        .ok { s with heap := pre ++ [⟨.ty cls, fl, aliasStep cur p⟩] } := by
      unfold register_alias
      rw [classGet_of_entry s _ _ hlook, bind_ok_eq]
      dsimp only
      have hd : derefClassDef s (some (.cdef pre.length)) =
          .ok (pre.length, ⟨.ty cls, fl, cur⟩) := by
        unfold derefClassDef
        dsimp only
        rw [hheap, get?_append_len]
      rw [hd, bind_ok_eq]
      dsimp only
      unfold Registry.add Registry.set Registry.contains
      dsimp only
      by_cases hc : dictContains cur p.1 = true
      · rw [if_pos hc]
        dsimp only [aliasStep]
        rw [hheap, set_append_len, if_pos hc]
      · rw [if_neg hc]
        by_cases hn : p.2 = RVal.none
        · rw [if_pos hn]
          dsimp only [aliasGen]
          rw [dictGet_set_self]
          dsimp only [Option.getD_some]
          rw [hheap, set_append_len]
          dsimp only [aliasStep]
          rw [if_neg hc, hn]
        · rw [if_neg hn]
          dsimp only
          rw [dictGet_set_self]
          dsimp only [Option.getD_some]
          rw [hheap, set_append_len]
          dsimp only [aliasStep]
          rw [if_neg hc]
    obtain ⟨s2, hfold, hcr, hh, hod⟩ := ih { s with heap := pre ++ [⟨.ty cls, fl, aliasStep cur p⟩] }
      pre fl (aliasStep cur p) hlook rfl
    refine ⟨s2, ?_, hcr, ?_, hod⟩
    · rw [List.foldlM_cons, hra, bind_ok_eq]
      exact hfold
    · rw [hh]
      rfl

/-- A marker-free class `__dict__` autoregisters no fields. -/
theorem filterMap_markers_nil (d : List (String × Attr))
    (h : ∀ p ∈ d, (match p.2 with | Attr.plain _ => true | _ => false) = true) :
    d.filterMap (fun p =>
      match p.2 with
      | .fieldMarker v _ => some ((RVal.str p.1), v)
      | .plain _ => Option.none) = [] := by
  rw [List.filterMap_eq_nil]
  intro p hp
  have h2 := h p hp
  cases hpp : p.2 with
  | fieldMarker v a => rw [hpp] at h2; simp at h2
  | plain v => rfl

/-- A marker-free class `__dict__` contributes no aliases. -/
theorem foldl_aliases_plain (al : List (RVal × RVal)) :
    ∀ (d : List (String × Attr)),
      (∀ p ∈ d, (match p.2 with | Attr.plain _ => true | _ => false) = true) →
      d.foldl (fun al p =>
        match p.2 with
        | .fieldMarker _ a => if rvalTruthy a then dictSet al (RVal.str p.1) a else al
        | .plain _ => al) al = al := by
  intro d
  induction d generalizing al with
  | nil => intro h; rfl
  | cons p rest ih =>
    intro h
    rw [List.foldl_cons]
    have h2 := h p (List.mem_cons_self p rest)
    cases hpp : p.2 with
    | fieldMarker v a => rw [hpp] at h2; simp at h2
    | plain v => exact ih al (fun q hq => h q (List.mem_cons_of_mem p hq))

/-- Unwrapping markers is the identity on a marker-free `__dict__`. -/
theorem map_plain_id :
    ∀ (d : List (String × Attr)),
      (∀ p ∈ d, (match p.2 with | Attr.plain _ => true | _ => false) = true) →
      d.map (fun p =>
        match p.2 with
        | .fieldMarker v _ => (p.1, Attr.plain v)
        | .plain _ => p) = d := by
  intro d
  induction d with
  | nil => intro h; rfl
  | cons p rest ih =>
    intro h
    rw [List.map_cons]
    have h2 := h p (List.mem_cons_self p rest)
    cases hpp : p.2 with
    | fieldMarker v a => rw [hpp] at h2; simp at h2
    | plain v =>
      rw [ih (fun q hq => h q (List.mem_cons_of_mem p hq))]

/-- The state of `register_class` after the class has been added to the
global registries and the name allocator reset. -/
@[reducible] def rebuiltBase (s2 : DecState) (cls : PyType) : DecState :=
  { typeAdd
      { s2 with
        class_registry := s2.class_registry ++
          [(.ty cls, .cdef s2.heap.length), (.cdef s2.heap.length, .ty cls)],
        heap := s2.heap ++ [⟨.ty cls, [], []⟩] } (.ty cls) none
    with nameCounter := 0 }

theorem rebuiltBase_class_registry (s2 : DecState) (cls : PyType) :
    (rebuiltBase s2 cls).class_registry = s2.class_registry ++
      [(.ty cls, .cdef s2.heap.length), (.cdef s2.heap.length, .ty cls)] := by
  show (typeAdd _ _ _).class_registry = _
  rw [typeAdd_class_registry]

theorem rebuiltBase_heap (s2 : DecState) (cls : PyType) :
    (rebuiltBase s2 cls).heap = s2.heap ++ [⟨.ty cls, [], []⟩] := by
  show (typeAdd _ _ _).heap = _
  rw [typeAdd_heap]

theorem rebuiltBase_objDicts (s2 : DecState) (cls : PyType) :
    (rebuiltBase s2 cls).objDicts = s2.objDicts := by
  show (typeAdd _ _ _).objDicts = _
  rw [typeAdd_objDicts]

/-- The same state after the `__dict__` write-back of the empty-field
scan. -/
@[reducible] def rebuiltBase2 (s2 : DecState) (cls : PyType) : DecState :=
  { rebuiltBase s2 cls with
    objDicts := dictSet s2.objDicts cls ((dictGet s2.objDicts cls).getD []) }

theorem rebuiltBase2_class_registry (s2 : DecState) (cls : PyType) :
    (rebuiltBase2 s2 cls).class_registry = s2.class_registry ++
      [(.ty cls, .cdef s2.heap.length), (.cdef s2.heap.length, .ty cls)] :=
  rebuiltBase_class_registry s2 cls

theorem rebuiltBase2_heap (s2 : DecState) (cls : PyType) :
    (rebuiltBase2 s2 cls).heap = s2.heap ++ [⟨.ty cls, [], []⟩] :=
  rebuiltBase_heap s2 cls

/-- Re-registering one class from its snapshot (the `refresh` path)
rebuilds exactly the snapshotted field and alias tables in a freshly
allocated `ClassDefinition`, appending the class's add-block to the
class registry and touching no other class's `__dict__`. -/
theorem registerClassRebuild (s2 : DecState) (cls : PyType) (fl al : List (RVal × RVal))
    (h1 : dictContains s2.class_registry (.ty cls) = false)
    (h2 : dictContains s2.class_registry (.cdef s2.heap.length) = false)
    (hcs : classSafeB ((dictGet s2.objDicts cls).getD []) fl al = true) :
    ∃ s3, register_class s2 cls (some fl) (some al) = .ok s3 ∧
      s3.class_registry = s2.class_registry ++
        [(.ty cls, .cdef s2.heap.length), (.cdef s2.heap.length, .ty cls)] ∧
      s3.heap = s2.heap ++ [⟨.ty cls, fl, al⟩] ∧
      (∀ c', c' ≠ cls → dictGet s3.objDicts c' = dictGet s2.objDicts c') := by
  have hcs2 := hcs
  unfold classSafeB at hcs2
  simp only [Bool.and_eq_true, Bool.or_eq_true, List.all_eq_true, decide_eq_true_eq] at hcs2
  obtain ⟨⟨⟨⟨hmk, htyv⟩, halc⟩, hnd⟩, hrep⟩ := hcs2
  have hty2 : ∀ p ∈ fl, ∃ t, p.2 = RVal.ty t := by
    intro p hp
    have h3 := htyv p hp
    cases hpp : p.2 with
    | ty t => exact ⟨t, rfl⟩
    | int i => rw [hpp] at h3; simp at h3
    | str t => rw [hpp] at h3; simp at h3
    | bytes b => rw [hpp] at h3; simp at h3
    | none => rw [hpp] at h3; simp at h3
    | cdef r => rw [hpp] at h3; simp at h3
  have hlook2 : dictGet (s2.class_registry ++
      [(RVal.ty cls, RVal.cdef s2.heap.length), (RVal.cdef s2.heap.length, RVal.ty cls)])
      (RVal.ty cls) = some (RVal.cdef s2.heap.length) := by
    rw [dictGet_append_right _ _ _ h1, dictGet_cons, if_pos rfl]
  by_cases hfl : fl.isEmpty = true
  · have hfl2 : fl = [] := List.isEmpty_iff.mp hfl
    subst hfl2
    have hmk2 : ∀ p ∈ (dictGet s2.objDicts cls).getD [],
        (match p.2 with | Attr.plain _ => true | _ => false) = true := by
      rcases hmk with hmk | hmk
      · simp at hmk
      · exact hmk
    obtain ⟨sE, hfoldA, hcrE, hhE, hodE⟩ := aliasFold cls al (rebuiltBase2 s2 cls) s2.heap [] []
      (by rw [rebuiltBase2_class_registry]; exact hlook2)
      (rebuiltBase2_heap s2 cls)
    rw [hrep] at hhE
    refine ⟨sE, ?_, ?_, ?_, ?_⟩
    · unfold register_class
      simp only [Option.getD_some]
      rw [classAdd_fresh s2 cls h1 h2]
      rw [if_pos hfl]
      dsimp only
      rw [typeAdd_objDicts]
      dsimp only
      rw [filterMap_markers_nil _ hmk2, foldl_aliases_plain al _ hmk2, map_plain_id _ hmk2]
      rw [List.foldlM_nil, bind_pure_eq]
      rw [hfoldA, bind_ok_eq]
    · rw [hcrE, rebuiltBase2_class_registry]
    · exact hhE
    · intro c' hne
      rw [hodE]
      show dictGet (dictSet s2.objDicts cls _) c' = _
      rw [dictGet_set_ne _ _ _ _ hne]
  · obtain ⟨sD, hfoldF, hcrD, hhD, hodD⟩ := fieldFold cls al fl (rebuiltBase s2 cls) s2.heap []
      (by rw [rebuiltBase_class_registry]; exact hlook2)
      (rebuiltBase_heap s2 cls)
      hty2 halc (fun q hq => rfl) hnd
    simp only [List.nil_append] at hhD
    obtain ⟨sE, hfoldA, hcrE, hhE, hodE⟩ := aliasFold cls al sD s2.heap fl []
      (by rw [hcrD, rebuiltBase_class_registry]; exact hlook2)
      hhD
    rw [hrep] at hhE
    refine ⟨sE, ?_, ?_, ?_, ?_⟩
    · unfold register_class
      simp only [Option.getD_some]
      rw [classAdd_fresh s2 cls h1 h2]
      rw [if_neg hfl]
      dsimp only
      dsimp only at hfoldF
      rw [hfoldF, bind_ok_eq]
      dsimp only
      rw [hfoldA, bind_ok_eq]
    · rw [hcrE, hcrD, rebuiltBase_class_registry]
    · exact hhE
    · intro c' hne
      rw [hodE, hodD, rebuiltBase_objDicts]

/-- The class keys of a block-structured registry are the snapshot's
classes, in order. -/
theorem blocksSpec_tyKeys (s : DecState) (l : List (RVal × RVal)) :
    ∀ out, blocksSpec s l = some out → tyKeys l = out.map (fun e => e.1) := by
  induction l using Bran.blocksSpec.induct s with
  | case1 =>
    intro out h
    simp only [blocksSpec, Option.some.injEq] at h
    subst h
    rfl
  | case2 c r r2 c2 rest hrc cd hg ih =>
    intro out h
    simp only [blocksSpec] at h
    rw [if_pos hrc, hg] at h
    obtain ⟨out2, hb2, hout⟩ := Option.map_eq_some'.mp h
    subst hout
    obtain ⟨hr2, hc2⟩ := hrc
    subst hr2
    subst hc2
    have ihe := ih out2 hb2
    simp only [tyKeys, List.filterMap_cons] at ihe ⊢
    rw [ihe]
    rfl
  | case3 c r r2 c2 rest hrc hg =>
    intro out h
    simp only [blocksSpec] at h
    rw [if_pos hrc, hg] at h
    cases h
  | case4 c r r2 c2 rest hrc =>
    intro out h
    simp only [blocksSpec] at h
    rw [if_neg hrc] at h
    cases h
  | case5 t hnil hnb =>
    intro out h
    rw [blocksSpec.eq_def] at h
    split at h
    · exact (hnil rfl).elim
    · exact (hnb _ _ _ _ _ rfl).elim
    · cases h

/-- With distinct classes, every forward class binding of a
block-structured registry is the one its lookup returns. -/
theorem blocks_lookup (s : DecState) (l : List (RVal × RVal)) :
    ∀ out, blocksSpec s l = some out → (out.map (fun e => e.1)).Nodup →
      ∀ c r, (RVal.ty c, RVal.cdef r) ∈ l → dictGet l (RVal.ty c) = some (RVal.cdef r) := by
  induction l using Bran.blocksSpec.induct s with
  | case1 =>
    intro out h hnd c r hmem
    simp at hmem
  | case2 c0 r0 r2 c2 rest hrc cd hg ih =>
    intro out h hnd c r hmem
    simp only [blocksSpec] at h
    rw [if_pos hrc, hg] at h
    obtain ⟨out2, hb2, hout⟩ := Option.map_eq_some'.mp h
    subst hout
    obtain ⟨hr2, hc2⟩ := hrc
    subst hr2
    subst hc2
    rw [List.map_cons, List.nodup_cons] at hnd
    rcases List.mem_cons.mp hmem with hmem1 | hmem2
    · have h1 : c = c2 ∧ r = r2 := by
        have h2 := congrArg Prod.fst hmem1
        have h3 := congrArg Prod.snd hmem1
        simp only at h2 h3
        exact ⟨by injection h2, by injection h3⟩
      obtain ⟨hc, hr⟩ := h1
      subst hc
      subst hr
      rw [dictGet_cons, if_pos rfl]
    · rcases List.mem_cons.mp hmem2 with hmem3 | hmem4
      · exfalso
        have h2 := congrArg Prod.fst hmem3
        simp only at h2
        cases h2
      · have hcne : c ≠ c2 := by
          intro hh
          have hcm : c ∈ List.map (fun e => e.1) out2 := by
            rw [← blocksSpec_tyKeys s rest out2 hb2]
            exact List.mem_filterMap.mpr ⟨(RVal.ty c, RVal.cdef r), hmem4, rfl⟩
          rw [hh] at hcm
          exact hnd.1 hcm
        rw [dictGet_cons, if_neg (by intro hh; injection hh with hh2; exact hcne hh2.symm)]
        rw [dictGet_cons, if_neg (by intro hh; cases hh)]
        exact ih out2 hb2 hnd.2 c r hmem4
  | case3 c0 r0 r2 c2 rest hrc hg =>
    intro out h
    simp only [blocksSpec] at h
    rw [if_pos hrc, hg] at h
    cases h
  | case4 c0 r0 r2 c2 rest hrc =>
    intro out h
    simp only [blocksSpec] at h
    rw [if_neg hrc] at h
    cases h
  | case5 t hnil hnb =>
    intro out h
    rw [blocksSpec.eq_def] at h
    split at h
    · exact (hnil rfl).elim
    · exact (hnb _ _ _ _ _ rfl).elim
    · cases h

/-- Every snapshot entry of a block-structured registry comes from a
live `ClassDefinition` holding exactly those tables. -/
theorem blocks_tables (s : DecState) (l : List (RVal × RVal)) :
    ∀ out, blocksSpec s l = some out →
      ∀ e ∈ out, ∃ r cd, (RVal.ty e.1, RVal.cdef r) ∈ l ∧ s.heap.get? r = some cd ∧
        cd.fields = e.2.1 ∧ cd.aliases = e.2.2 := by
  induction l using Bran.blocksSpec.induct s with
  | case1 =>
    intro out h e he
    simp only [blocksSpec, Option.some.injEq] at h
    subst h
    simp at he
  | case2 c0 r0 r2 c2 rest hrc cd hg ih =>
    intro out h e he
    simp only [blocksSpec] at h
    rw [if_pos hrc, hg] at h
    obtain ⟨out2, hb2, hout⟩ := Option.map_eq_some'.mp h
    subst hout
    obtain ⟨hr2, hc2⟩ := hrc
    subst hr2
    subst hc2
    rcases List.mem_cons.mp he with he | he
    · subst he
      exact ⟨r2, cd, List.mem_cons_self _ _, hg, rfl, rfl⟩
    · obtain ⟨r, cd2, hmem, hget, hf, ha⟩ := ih out2 hb2 e he
      exact ⟨r, cd2, List.mem_cons_of_mem _ (List.mem_cons_of_mem _ hmem), hget, hf, ha⟩
  | case3 c0 r0 r2 c2 rest hrc hg =>
    intro out h
    simp only [blocksSpec] at h
    rw [if_pos hrc, hg] at h
    cases h
  | case4 c0 r0 r2 c2 rest hrc =>
    intro out h
    simp only [blocksSpec] at h
    rw [if_neg hrc] at h
    cases h
  | case5 t hnil hnb =>
    intro out h
    rw [blocksSpec.eq_def] at h
    split at h
    · exact (hnil rfl).elim
    · exact (hnb _ _ _ _ _ rfl).elim
    · cases h

/-- The snapshot loop of `refresh` over a block-structured registry
collects exactly the per-class tables, skipping the mirror keys. -/
theorem snapFold (s : DecState) (l : List (RVal × RVal)) :
    ∀ out acc, blocksSpec s l = some out →
      (∀ c r, (RVal.ty c, RVal.cdef r) ∈ l →
        dictGet s.class_registry (RVal.ty c) = some (RVal.cdef r)) →
      (l.map (fun p => p.1)).foldlM
        (fun (acc : List (PyType × List (RVal × RVal) × List (RVal × RVal))) k => do
          match k with
          | .ty c => do
            let (s2, v) ← classGet s k false
            let (_, cd) ← derefClassDef s2 v
            .ok (acc ++ [(c, cd.fields, cd.aliases)])
          | _ => .ok acc) acc = .ok (acc ++ out) := by
  induction l using Bran.blocksSpec.induct s with
  | case1 =>
    intro out acc h hlook
    simp only [blocksSpec, Option.some.injEq] at h
    subst h
    rw [List.map_nil, List.foldlM_nil]
    simp only [List.append_nil]
    rfl
  | case2 c0 r0 r2 c2 rest hrc cd hg ih =>
    intro out acc h hlook
    simp only [blocksSpec] at h
    rw [if_pos hrc, hg] at h
    obtain ⟨out2, hb2, hout⟩ := Option.map_eq_some'.mp h
    subst hout
    obtain ⟨hr2, hc2⟩ := hrc
    subst hr2
    subst hc2
    rw [List.map_cons, List.map_cons, List.foldlM_cons]
    dsimp only
    rw [classGet_of_entry s _ _ (hlook c2 r2 (List.mem_cons_self _ _)), bind_ok_eq]
    dsimp only
    have hd : derefClassDef s (some (RVal.cdef r2)) = .ok (r2, cd) := by
      unfold derefClassDef
      dsimp only
      rw [hg]
    rw [hd, bind_ok_eq]
    dsimp only
    rw [bind_ok_eq]
    rw [List.foldlM_cons]
    dsimp only
    rw [bind_ok_eq]
    have ihe := ih out2 (acc ++ [(c2, cd.fields, cd.aliases)]) hb2
      (fun c r hm => hlook c r (List.mem_cons_of_mem _ (List.mem_cons_of_mem _ hm)))
    rw [ihe]
    simp
  | case3 c0 r0 r2 c2 rest hrc hg =>
    intro out acc h
    simp only [blocksSpec] at h
    rw [if_pos hrc, hg] at h
    cases h
  | case4 c0 r0 r2 c2 rest hrc =>
    intro out acc h
    simp only [blocksSpec] at h
    rw [if_neg hrc] at h
    cases h
  | case5 t hnil hnb =>
    intro out acc h
    rw [blocksSpec.eq_def] at h
    split at h
    · exact (hnil rfl).elim
    · exact (hnb _ _ _ _ _ rfl).elim
    · cases h

/-- The rebuild loop of `refresh`: re-registering every snapshotted
class from a state where none of them is registered yields exactly the
snapshotted tables for each, appends their classes to the key list in
order, and preserves every pre-existing class binding and heap cell. -/
theorem rebuildFold :
    ∀ (out : List (PyType × List (RVal × RVal) × List (RVal × RVal))) (s2 : DecState),
      (out.map (fun e => e.1)).Nodup →
      (∀ e ∈ out, dictContains s2.class_registry (RVal.ty e.1) = false) →
      (∀ n, s2.heap.length ≤ n → dictContains s2.class_registry (RVal.cdef n) = false) →
      (∀ e ∈ out, classSafeB ((dictGet s2.objDicts e.1).getD []) e.2.1 e.2.2 = true) →
      ∃ sF, out.foldlM (fun s2 entry =>
          register_class s2 entry.1 (some entry.2.1) (some entry.2.2)) s2 = .ok sF ∧
        tyKeys sF.class_registry = tyKeys s2.class_registry ++ out.map (fun e => e.1) ∧
        (∀ e ∈ out, classTables sF e.1 = some (e.2.1, e.2.2)) ∧
        (∀ c rr, dictGet s2.class_registry (RVal.ty c) = some (RVal.cdef rr) →
          rr < s2.heap.length →
          dictGet sF.class_registry (RVal.ty c) = some (RVal.cdef rr) ∧
          sF.heap.get? rr = s2.heap.get? rr) ∧
        s2.heap.length ≤ sF.heap.length := by
  intro out
  induction out with
  | nil =>
    intro s2 hnd hfresh hcdef hcs
    refine ⟨s2, ?_, by simp, by simp, fun c rr hdg hlt => ⟨hdg, rfl⟩, le_refl _⟩
    rw [List.foldlM_nil]
    rfl
  | cons e out2 ih =>
    intro s2 hnd hfresh hcdef hcs
    rw [List.map_cons, List.nodup_cons] at hnd
    obtain ⟨s3, hrc, hcr3, hh3, hod3⟩ := registerClassRebuild s2 e.1 e.2.1 e.2.2
      (hfresh e (List.mem_cons_self _ _)) (hcdef s2.heap.length (le_refl _))
      (hcs e (List.mem_cons_self _ _))
    have hlen3 : s3.heap.length = s2.heap.length + 1 := by
      rw [hh3]
      simp
    have hne1 : ∀ e2 ∈ out2, e2.1 ≠ e.1 := by
      intro e2 he2 hh
      exact hnd.1 (hh ▸ List.mem_map_of_mem (fun e => e.1) he2)
    obtain ⟨sF, hfoldR, htyF, htabF, hpresF, hlenF⟩ := ih s3 hnd.2
      (by
        intro e2 he2
        rw [hcr3, dictContains_append, hfresh e2 (List.mem_cons_of_mem _ he2)]
        have h5 : ¬ (RVal.ty e.1 = RVal.ty e2.1) := by
          intro hh
          injection hh with hh2
          exact hne1 e2 he2 hh2.symm
        simp [dictContains, h5])
      (by
        intro n hn
        rw [hlen3] at hn
        rw [hcr3, dictContains_append, hcdef n (by omega)]
        have h5 : ¬ (RVal.cdef s2.heap.length = RVal.cdef n) := by
          intro hh
          injection hh with hh2
          omega
        simp [dictContains, h5])
      (by
        intro e2 he2
        rw [hod3 e2.1 (hne1 e2 he2)]
        exact hcs e2 (List.mem_cons_of_mem _ he2))
    have hgl : dictGet s3.class_registry (RVal.ty e.1) = some (RVal.cdef s2.heap.length) := by
      rw [hcr3, dictGet_append_right _ _ _ (hfresh e (List.mem_cons_self _ _)),
        dictGet_cons, if_pos rfl]
    have hhl : s3.heap.get? s2.heap.length = some ⟨RVal.ty e.1, e.2.1, e.2.2⟩ := by
      rw [hh3, get?_append_len]
    obtain ⟨hglF, hhlF⟩ := hpresF e.1 s2.heap.length hgl (by omega)
    refine ⟨sF, ?_, ?_, ?_, ?_, ?_⟩
    · rw [List.foldlM_cons, hrc, bind_ok_eq]
      exact hfoldR
    · rw [htyF, hcr3, tyKeys_append]
      simp [tyKeys]
    · intro e2 he2
      rcases List.mem_cons.mp he2 with he2 | he2
      · subst he2
        unfold classTables
        rw [hglF]
        dsimp only
        rw [hhlF, hhl]
        rfl
      · exact htabF e2 he2
    · intro c rr hdg hlt
      have hg3 : dictGet s3.class_registry (RVal.ty c) = some (RVal.cdef rr) := by
        rw [hcr3]
        exact dictGet_append_left _ _ _ _ hdg
      have hh3r : s3.heap.get? rr = s2.heap.get? rr := by
        rw [hh3]
        exact get?_append_lt _ _ _ hlt
      obtain ⟨hgF, hhF⟩ := hpresF c rr hg3 (by omega)
      exact ⟨hgF, by rw [hhF, hh3r]⟩
    · omega

/-- C6: `refresh()` preserves the set of registered classes and, for
each registered class, its field table and its alias table entries
exactly: it snapshots every class's tables, clears the class and type
registries, resets both allocators and re-registers every class from the
snapshot in original registration order — so only the numeric type ids
may change, deterministically.  The hypothesis is the (decidable)
well-formedness invariant the registration API maintains: the class
registry is a list of add-blocks over live `ClassDefinition`s with
distinct classes, and every class's tables are rebuildable (field values
are types, field names are unique and aliased, the alias table replays
through `add` unchanged, and a class with an empty field table has no
leftover `Field` markers in its `__dict__`). -/
theorem refresh_preserves (s : DecState) (h : refreshSafe s = true) :
    ∃ s2, refresh s = .ok s2 ∧
      tyKeys s2.class_registry = tyKeys s.class_registry ∧
      ∀ c ∈ tyKeys s.class_registry, classTables s2 c = classTables s c := by
  unfold refreshSafe at h
  cases hb : blocksSpec s s.class_registry with
  | none => rw [hb] at h; cases h
  | some out =>
    rw [hb] at h
    simp only [Bool.and_eq_true, decide_eq_true_eq, List.all_eq_true] at h
    obtain ⟨hnd, hcs⟩ := h
    have hlookAll : ∀ c r, (RVal.ty c, RVal.cdef r) ∈ s.class_registry →
        dictGet s.class_registry (RVal.ty c) = some (RVal.cdef r) :=
      blocks_lookup s s.class_registry out hb hnd
    have hsnap : (s.class_registry.map (fun p => p.1)).foldlM
        (fun (acc : List (PyType × List (RVal × RVal) × List (RVal × RVal))) k => do
          match k with
          | .ty c => do
            let (s2, v) ← classGet s k false
            let (_, cd) ← derefClassDef s2 v
            .ok (acc ++ [(c, cd.fields, cd.aliases)])
          | _ => .ok acc) [] = .ok out := by
      have h5 := snapFold s s.class_registry out [] hb hlookAll
      simpa using h5
    obtain ⟨sF, hfoldR, htyF, htabF, hpresF, hlenF⟩ := rebuildFold out
      { s with class_registry := [], type_registry := [], typeCounter := 0, nameCounter := 0 }
      hnd (fun e he => rfl) (fun n hn => rfl) (fun e he => hcs e he)
    refine ⟨sF, ?_, ?_, ?_⟩
    · unfold refresh
      dsimp only
      rw [hsnap, bind_ok_eq]
      exact hfoldR
    · rw [htyF, blocksSpec_tyKeys s s.class_registry out hb]
      show tyKeys [] ++ _ = _
      rw [show tyKeys ([] : List (RVal × RVal)) = [] from rfl, List.nil_append]
    · intro c hc
      rw [blocksSpec_tyKeys s s.class_registry out hb] at hc
      obtain ⟨e, he, hec⟩ := List.mem_map.mp hc
      subst hec
      obtain ⟨r, cd, hmem, hget, hf, ha⟩ := blocks_tables s s.class_registry out hb e he
      have h2 : classTables s e.1 = some (e.2.1, e.2.2) := by
        unfold classTables
        rw [hlookAll e.1 r hmem]
        dsimp only
        rw [hget]
        simp only [Option.map_some']
        rw [hf, ha]
      rw [htabF e he, h2]

/-- Witness: `refresh` on a state holding one registered class (one
typed, aliased field), as built by the registration decorators. -/
theorem refresh_preserves_witness :
    ∃ s2,
      refresh ⟨[(.ty (.user 0), .int 1), (.int 1, .ty (.user 0))], 1, 1,
        [(.ty (.user 0), .cdef 0), (.cdef 0, .ty (.user 0))],
        [⟨.ty (.user 0), [(.str "test", .ty .int)],
          [(.str "test", .int 1), (.int 1, .str "test")]⟩],
        [(.user 0, [("test", .plain (.int 1))])]⟩ = .ok s2 ∧
      tyKeys s2.class_registry =
        tyKeys (DecState.class_registry ⟨[(.ty (.user 0), .int 1), (.int 1, .ty (.user 0))], 1, 1,
          [(.ty (.user 0), .cdef 0), (.cdef 0, .ty (.user 0))],
          [⟨.ty (.user 0), [(.str "test", .ty .int)],
            [(.str "test", .int 1), (.int 1, .str "test")]⟩],
          [(.user 0, [("test", .plain (.int 1))])]⟩) ∧
      ∀ c ∈ tyKeys (DecState.class_registry ⟨[(.ty (.user 0), .int 1), (.int 1, .ty (.user 0))], 1, 1,
          [(.ty (.user 0), .cdef 0), (.cdef 0, .ty (.user 0))],
          [⟨.ty (.user 0), [(.str "test", .ty .int)],
            [(.str "test", .int 1), (.int 1, .str "test")]⟩],
          [(.user 0, [("test", .plain (.int 1))])]⟩),
        classTables s2 c =
          classTables ⟨[(.ty (.user 0), .int 1), (.int 1, .ty (.user 0))], 1, 1,
            [(.ty (.user 0), .cdef 0), (.cdef 0, .ty (.user 0))],
            [⟨.ty (.user 0), [(.str "test", .ty .int)],
              [(.str "test", .int 1), (.int 1, .str "test")]⟩],
            [(.user 0, [("test", .plain (.int 1))])]⟩ c :=
  refresh_preserves _ (by decide)

end Bran

